import Mathlib

/-!
Verification development for the worldnotes repository.

The repository consists of two layers:

* The Placement & Adjustment Engine (ghost preview, transform rules,
  selection, undo/redo history, state machine).  Its implementation lives
  in a vanilla-JS viewer.html that is not part of the checked-in TypeScript
  sources; the repository only carries its design document
  (src/unnamed/part_000) and the .kiro task list.  Definitions for that
  layer are therefore modelled from the specification text, which is the
  authoritative description of the missing code.  Each such definition
  carries a doc comment starting with the words Modelled from the spec.

* The persistence and scene-management layer (SceneSerializer /
  SceneDeserializer, SceneManager.loadWorld), which is present in the
  TypeScript sources and is embedded here function by function.

Numbers are modelled with the rationals: every JavaScript number the
claims touch is manipulated only by copying, comparison, addition and
multiplication, which agree with rational arithmetic away from overflow
and NaN.  JavaScript string coercion String(s) on a string and Number(n)
on a number are identities and are modelled as such.
-/

namespace Worldnotes

/-- A float triple, used for positions, normals and scale vectors
(spec section 3, Vector3). -/
structure Vec3 where
  x : ℚ
  y : ℚ
  z : ℚ
deriving DecidableEq, Repr

/-- Modelled from the spec: result of the Surface Oracle raycast query,
a hit position plus surface normal plus distance (spec section 6). -/
structure HitResult where
  position : Vec3
  normal : Vec3
  distance : ℚ
deriving DecidableEq, Repr

/-! ## Transform Rules (spec section 4.1, design doc TransformManager)

The design document fixes the constants
ROTATION_INCREMENT = pi/12, SCALE_INCREMENT = 0.1,
MIN_SCALE = 0.1, MAX_SCALE = 5.0. -/

/-- Modelled from the spec: the lower scale bound MIN_SCALE = 0.1. -/
def MIN_SCALE : ℚ := 1 / 10

/-- Modelled from the spec: the upper scale bound MAX_SCALE = 5.0. -/
def MAX_SCALE : ℚ := 5

/-- Modelled from the spec: applyScale(scale, deltaFactor) =
clamp(scale * (1 + deltaFactor), 0.1, 5.0); the result is silently
clamped, never rejected (spec section 4.1). -/
def applyScale (scale deltaFactor : ℚ) : ℚ :=
  max MIN_SCALE (min MAX_SCALE (scale * (1 + deltaFactor)))

/-- Modelled from the spec: a scale change is applied uniformly across all
three axes of a scale vector; the design doc stores a single scalar and
sets every axis to it (TransformManager, uniform scaling). -/
def applyScaleVec3 (v : Vec3) (deltaFactor : ℚ) : Vec3 :=
  let s := applyScale v.x deltaFactor
  ⟨s, s, s⟩

/-- Modelled from the spec: applyRotation(yaw, deltaRadians) =
yaw + deltaRadians (spec section 4.1).  Polymorphic in the number type so
the same definition serves the real-valued rotation claims (with the
exact angle pi/12) and the rational-valued engine model. -/
def applyRotation {α : Type} [Add α] (yaw deltaRadians : α) : α :=
  yaw + deltaRadians

/-! ## Ghost Preview State (spec section 4.2) -/

/-- Modelled from the spec: GhostState holds the pending object's
transform and a validity flag (spec section 3).  surfaceNormal is null
until the first successful raycast. -/
structure GhostState where
  modelRef : String
  position : Vec3
  yaw : ℚ
  surfaceNormal : Option Vec3
  scale : ℚ
  valid : Bool
deriving DecidableEq, Repr

/-- Modelled from the spec: the ghost created on entering previewing,
before any raycast has hit (scale starts at 1, not yet valid). -/
def GhostState.initial (modelRef : String) : GhostState :=
  { modelRef := modelRef
    position := ⟨0, 0, 0⟩
    yaw := 0
    surfaceNormal := none
    scale := 1
    valid := false }

/-- Modelled from the spec: updateFromHit(hit) sets position and normal
and valid = true on a hit, and on a missing hit only clears valid,
retaining the last position and normal (spec section 4.2). -/
def updateFromHit (g : GhostState) (hit : Option HitResult) : GhostState :=
  match hit with
  | some h => { g with position := h.position, surfaceNormal := some h.normal, valid := true }
  | none => { g with valid := false }

/-- Modelled from the spec: snapshotForCommit materializes the ghost
transform; it is only meaningful while the ghost is valid (spec
section 4.2), and a valid ghost always has a recorded surface normal. -/
def snapshotForCommit (g : GhostState) :
    Option (Vec3 × ℚ × Vec3 × ℚ) :=
  if g.valid then g.surfaceNormal.map (fun n => (g.position, g.yaw, n, g.scale)) else none

/-! ## Undo/Redo History (spec section 4.4, design doc UndoHistory) -/

/-- Modelled from the spec: the tagged action kinds place, move, rotate,
scale, delete (spec section 3, HistoryEntry.actionKind). -/
inductive ActionKind where
  | place
  | move
  | rotate
  | scale
  | delete
deriving DecidableEq, Repr

/-- Modelled from the spec: PlacedObjectSnapshot, the whole transform of
a placed object recorded in history entries, together with the model
reference needed to recreate the object on redo of place. -/
structure Snapshot where
  modelRef : String
  position : Vec3
  yaw : ℚ
  surfaceNormal : Vec3
  scale : ℚ
deriving DecidableEq, Repr

/-- Modelled from the spec: HistoryEntry with before = none only for
place and after = none only for delete (spec section 3). -/
structure HistoryEntry where
  actionKind : ActionKind
  objectId : Nat
  before : Option Snapshot
  after : Option Snapshot
deriving DecidableEq, Repr

/-- Modelled from the spec: the history capacity of 20 entries. -/
def HISTORY_CAP : Nat := 20

/-- Modelled from the spec: the two bounded stacks of the undo history;
the head of each list is the most recent (top) entry. -/
structure History where
  undoStack : List HistoryEntry
  redoStack : List HistoryEntry
deriving DecidableEq, Repr

/-- The empty history. -/
def History.empty : History := ⟨[], []⟩

/-- Modelled from the spec: push(entry) appends the entry on top of the
undo stack, evicts the oldest (bottom) entry if the stack length exceeds
20, and clears the redo stack (spec section 4.4). -/
def History.push (h : History) (e : HistoryEntry) : History :=
  let grown := e :: h.undoStack
  { undoStack := if grown.length > HISTORY_CAP then grown.dropLast else grown
    redoStack := [] }

/-- Push a whole list of entries, oldest first. -/
def History.pushAll (h : History) (es : List HistoryEntry) : History :=
  es.foldl History.push h

/-- Modelled from the spec: undo() pops the most recent undo entry and
moves it onto the redo stack, returning none on an empty stack (spec
section 4.4). -/
def History.popUndo (h : History) : Option (HistoryEntry × History) :=
  match h.undoStack with
  | [] => none
  | e :: rest => some (e, ⟨rest, e :: h.redoStack⟩)

/-- Modelled from the spec: redo() pops the redo stack and pushes the
entry back onto the undo stack (without clearing the redo stack, since
that would destroy the remaining redoable entries). -/
def History.popRedo (h : History) : Option (HistoryEntry × History) :=
  match h.redoStack with
  | [] => none
  | e :: rest => some (e, ⟨e :: h.undoStack, rest⟩)

/-! ## The external object store (spec sections 3 and 6)

The store is the external single source of truth for placed objects.  It
is keyed by object id; following the sorted-association-list technique
the model keeps the objects sorted by strictly increasing id, so that
equality of stores is equality of observable content. -/

/-- Modelled from the spec: PlacedObject with id, modelRef, position,
yaw, surfaceNormal and uniform scale (spec section 3). -/
structure PlacedObject where
  id : Nat
  modelRef : String
  position : Vec3
  yaw : ℚ
  surfaceNormal : Vec3
  scale : ℚ
deriving DecidableEq, Repr

/-- The snapshot of a placed object recorded into history entries. -/
def snapOfObj (o : PlacedObject) : Snapshot :=
  ⟨o.modelRef, o.position, o.yaw, o.surfaceNormal, o.scale⟩

/-- Rebuild a placed object from an id and a snapshot. -/
def objOfSnap (i : Nat) (s : Snapshot) : PlacedObject :=
  ⟨i, s.modelRef, s.position, s.yaw, s.surfaceNormal, s.scale⟩

/-- Insert an object into an id-sorted object list, replacing any
existing object with the same id (objectStore.create / .replace). -/
def insertObj (o : PlacedObject) : List PlacedObject → List PlacedObject
  | [] => [o]
  | x :: xs =>
    if o.id < x.id then o :: x :: xs
    else if o.id = x.id then o :: xs
    else x :: insertObj o xs

/-- Remove the object with the given id (objectStore.remove). -/
def removeObj (i : Nat) (l : List PlacedObject) : List PlacedObject :=
  l.filter (fun o => o.id ≠ i)

/-- Look up the object with the given id (objectStore.get). -/
def findObj (i : Nat) (l : List PlacedObject) : Option PlacedObject :=
  l.find? (fun o => o.id = i)

/-- Modelled from the spec: the external object store; nextId plays the
role of the fresh object ids handed out by objectStore.create. -/
structure ObjectStore where
  objects : List PlacedObject
  nextId : Nat
deriving DecidableEq, Repr

/-- The empty object store. -/
def ObjectStore.empty : ObjectStore := ⟨[], 0⟩

/-- Well-formedness of the store model: objects are sorted by strictly
increasing id and every id is below nextId. -/
def StoreWF (st : ObjectStore) : Prop :=
  st.objects.Pairwise (fun a b => a.id < b.id) ∧ ∀ o ∈ st.objects, o.id < st.nextId

/-! ## Recorded actions (spec sections 4.4, 4.5, 9)

Every history-recorded mutation of the object store is one of the five
action kinds.  performAction is the single mutation path of the
Placement Engine against the store: it computes the store update and the
honest before/after snapshots of the HistoryEntry for that action. -/

/-- Modelled from the spec: a request for one recorded action.  place
carries the ghost snapshot being committed; move carries the drag target
transform; rotate and scale carry the increment for the selected
object. -/
inductive ActionRequest where
  | place (snap : Snapshot)
  | move (id : Nat) (pos : Vec3) (normal : Vec3)
  | rotate (id : Nat) (delta : ℚ)
  | scaleBy (id : Nat) (delta : ℚ)
  | delete (id : Nat)
deriving DecidableEq, Repr

/-- Modelled from the spec: apply one recorded action to the store,
returning the updated store and the HistoryEntry describing it (none
when the action's target does not exist, in which case the store is
unchanged and nothing is recorded). -/
def performAction (st : ObjectStore) : ActionRequest → ObjectStore × Option HistoryEntry
  | .place snap =>
    let o := objOfSnap st.nextId snap
    (⟨insertObj o st.objects, st.nextId + 1⟩,
      some ⟨.place, st.nextId, none, some snap⟩)
  | .move i pos normal =>
    match findObj i st.objects with
    | none => (st, none)
    | some o =>
      let o' := { o with position := pos, surfaceNormal := normal }
      (⟨insertObj o' st.objects, st.nextId⟩,
        some ⟨.move, i, some (snapOfObj o), some (snapOfObj o')⟩)
  | .rotate i delta =>
    match findObj i st.objects with
    | none => (st, none)
    | some o =>
      let o' := { o with yaw := applyRotation o.yaw delta }
      (⟨insertObj o' st.objects, st.nextId⟩,
        some ⟨.rotate, i, some (snapOfObj o), some (snapOfObj o')⟩)
  | .scaleBy i delta =>
    match findObj i st.objects with
    | none => (st, none)
    | some o =>
      let o' := { o with scale := applyScale o.scale delta }
      (⟨insertObj o' st.objects, st.nextId⟩,
        some ⟨.scale, i, some (snapOfObj o), some (snapOfObj o')⟩)
  | .delete i =>
    match findObj i st.objects with
    | none => (st, none)
    | some o =>
      (⟨removeObj i st.objects, st.nextId⟩,
        some ⟨.delete, i, some (snapOfObj o), none⟩)

/-- Modelled from the spec: undoing an entry replaces after by before on
the object store, deleting the object when before = none (undo of
place) and recreating it when it is absent (undo of delete). -/
def undoApplyObjects (e : HistoryEntry) (objs : List PlacedObject) : List PlacedObject :=
  match e.before with
  | none => removeObj e.objectId objs
  | some s => insertObj (objOfSnap e.objectId s) objs

/-- Modelled from the spec: redoing an entry re-applies before to after,
deleting the object when after = none (redo of delete). -/
def redoApplyObjects (e : HistoryEntry) (objs : List PlacedObject) : List PlacedObject :=
  match e.after with
  | none => removeObj e.objectId objs
  | some s => insertObj (objOfSnap e.objectId s) objs

/-- One recorded action step of the engine against store and history:
perform the action and push its entry (spec section 4.5). -/
def doAction (sh : ObjectStore × History) (r : ActionRequest) : ObjectStore × History :=
  match performAction sh.1 r with
  | (st', some e) => (st', sh.2.push e)
  | (st', none) => (st', sh.2)

/-- Run a list of recorded actions, oldest first. -/
def runActions (sh : ObjectStore × History) (rs : List ActionRequest) : ObjectStore × History :=
  rs.foldl doAction sh

/-- Modelled from the spec: the engine's undo command; pop the undo
stack and apply the popped entry backward (no-op on empty history). -/
def doUndo (sh : ObjectStore × History) : ObjectStore × History :=
  match sh.2.popUndo with
  | none => sh
  | some (e, h') => (⟨undoApplyObjects e sh.1.objects, sh.1.nextId⟩, h')

/-- Modelled from the spec: the engine's redo command; pop the redo
stack and apply the popped entry forward (no-op on empty redo stack). -/
def doRedo (sh : ObjectStore × History) : ObjectStore × History :=
  match sh.2.popRedo with
  | none => sh
  | some (e, h') => (⟨redoApplyObjects e sh.1.objects, sh.1.nextId⟩, h')

/-- Whether one action is applicable (its target exists) in a store. -/
def applies (st : ObjectStore) : ActionRequest → Bool
  | .place _ => true
  | .move i _ _ => (findObj i st.objects).isSome
  | .rotate i _ => (findObj i st.objects).isSome
  | .scaleBy i _ => (findObj i st.objects).isSome
  | .delete i => (findObj i st.objects).isSome

/-- Whether a whole action sequence is applicable step by step. -/
def appliesAll (st : ObjectStore) : List ActionRequest → Bool
  | [] => true
  | r :: rs => applies st r && appliesAll (performAction st r).1 rs

/-- The history entries an applicable action sequence records, oldest
first. -/
def entriesOf (st : ObjectStore) : List ActionRequest → List HistoryEntry
  | [] => []
  | r :: rs =>
    match performAction st r with
    | (st', some e) => e :: entriesOf st' rs
    | (st', none) => entriesOf st' rs

/-! ## Placement Engine state machine (spec section 4.5) -/

/-- Modelled from the spec: the engine mode enum, exactly one of idle,
previewing, adjusting holds at any time (spec section 3). -/
inductive Mode where
  | idle
  | previewing
  | adjusting
deriving DecidableEq, Repr

/-- Modelled from the spec: the commands accepted by the engine (spec
section 6), after the Input Arbitrator has resolved raw input. -/
inductive Event where
  | selectModel (modelRef : String)
  | pointerMove (hit : Option HitResult)
  | confirm
  | cancel
  | rotateCmd (delta : ℚ)
  | scaleCmd (delta : ℚ)
  | clickObject (i : Nat)
  | deselect
  | deleteCmd
  | undoCmd
  | redoCmd
  | beginDrag
  | updateDrag (hit : Option HitResult)
  | endDrag
deriving DecidableEq, Repr

/-- Modelled from the spec: the whole engine state: mode, ghost preview,
selection, transient drag session, the external object store and the
undo history (spec sections 2 and 3). -/
structure EngineState where
  mode : Mode
  ghost : Option GhostState
  selection : Option Nat
  dragging : Option (Nat × Snapshot)
  store : ObjectStore
  history : History
deriving DecidableEq, Repr

/-- The initial engine state: idle, nothing selected, empty store. -/
def EngineState.init : EngineState :=
  ⟨.idle, none, none, none, ObjectStore.empty, History.empty⟩

/-- Perform a recorded action against the store and push its history
entry; the single store-mutation path of the engine. -/
def recordAction (s : EngineState) (r : ActionRequest) : EngineState :=
  match performAction s.store r with
  | (st', some e) => { s with store := st', history := s.history.push e }
  | (st', none) => { s with store := st' }

/-- Modelled from the spec: the engine transition function, one row per
line of the state table in spec section 4.5. -/
def step (s : EngineState) : Event → EngineState
  | .selectModel m =>
    match s.mode with
    | .idle => { s with mode := .previewing, ghost := some (GhostState.initial m) }
    | _ => s
  | .pointerMove hit =>
    match s.mode, s.ghost with
    | .previewing, some g => { s with ghost := some (updateFromHit g hit) }
    | _, _ => s
  | .confirm =>
    match s.mode, s.ghost with
    | .previewing, some g =>
      match snapshotForCommit g with
      | some (pos, yaw, n, sc) =>
        let s' := recordAction s (.place ⟨g.modelRef, pos, yaw, n, sc⟩)
        { s' with mode := .adjusting, ghost := none, selection := some s.store.nextId }
      | none => s
    | _, _ => s
  | .cancel =>
    match s.mode with
    | .previewing => { s with mode := .idle, ghost := none }
    | .adjusting => { s with mode := .idle, selection := none, dragging := none }
    | .idle => s
  | .rotateCmd delta =>
    match s.mode with
    | .previewing =>
      match s.ghost with
      | some g => { s with ghost := some { g with yaw := applyRotation g.yaw delta } }
      | none => s
    | .adjusting =>
      match s.selection with
      | some i => recordAction s (.rotate i delta)
      | none => s
    | .idle => s
  | .scaleCmd delta =>
    match s.mode with
    | .previewing =>
      match s.ghost with
      | some g => { s with ghost := some { g with scale := applyScale g.scale delta } }
      | none => s
    | .adjusting =>
      match s.selection with
      | some i => recordAction s (.scaleBy i delta)
      | none => s
    | .idle => s
  | .clickObject i =>
    match s.mode with
    | .previewing => s
    | _ =>
      if (findObj i s.store.objects).isSome then
        { s with mode := .adjusting, selection := some i, dragging := none }
      else s
  | .deselect =>
    match s.mode with
    | .adjusting => { s with mode := .idle, selection := none, dragging := none }
    | _ => s
  | .deleteCmd =>
    match s.mode, s.selection with
    | .adjusting, some i =>
      let s' := recordAction s (.delete i)
      { s' with mode := .idle, selection := none, dragging := none }
    | _, _ => s
  | .undoCmd =>
    match s.history.popUndo with
    | none => s
    | some (e, h') =>
      let objs' := undoApplyObjects e s.store.objects
      let s' := { s with store := ⟨objs', s.store.nextId⟩, history := h' }
      match s'.mode, s'.selection with
      | .adjusting, some i =>
        if (findObj i objs').isSome then s'
        else { s' with mode := .idle, selection := none, dragging := none }
      | _, _ => s'
  | .redoCmd =>
    match s.history.popRedo with
    | none => s
    | some (e, h') =>
      let objs' := redoApplyObjects e s.store.objects
      let s' := { s with store := ⟨objs', s.store.nextId⟩, history := h' }
      match s'.mode, s'.selection with
      | .adjusting, some i =>
        if (findObj i objs').isSome then s'
        else { s' with mode := .idle, selection := none, dragging := none }
      | _, _ => s'
  | .beginDrag =>
    match s.mode, s.selection with
    | .adjusting, some i =>
      match findObj i s.store.objects with
      | some o => { s with dragging := some (i, snapOfObj o) }
      | none => s
    | _, _ => s
  | .updateDrag hit =>
    match s.dragging, hit with
    | some (i, _), some h =>
      match findObj i s.store.objects with
      | some o =>
        { s with store :=
            ⟨insertObj { o with position := h.position, surfaceNormal := h.normal }
              s.store.objects, s.store.nextId⟩ }
      | none => s
    | _, _ => s
  | .endDrag =>
    match s.dragging with
    | some (i, orig) =>
      match findObj i s.store.objects with
      | some o =>
        if snapOfObj o ≠ orig then
          { s with dragging := none,
                   history := s.history.push ⟨.move, i, some orig, some (snapOfObj o)⟩ }
        else { s with dragging := none }
      | none => { s with dragging := none }
    | none => s

/-- Run the engine from the initial state over a list of events. -/
def run (evs : List Event) : EngineState :=
  evs.foldl step EngineState.init

/-- A state is reachable when some event sequence produces it. -/
def Reachable (s : EngineState) : Prop :=
  ∃ evs, run evs = s

/-! ## Lemmas about the sorted object store -/

lemma mem_insertObj {a o : PlacedObject} {l : List PlacedObject}
    (h : a ∈ insertObj o l) : a = o ∨ a ∈ l := by
  induction l with
  | nil => simpa [insertObj] using h
  | cons x xs ih =>
    by_cases h1 : o.id < x.id
    · simp only [insertObj, if_pos h1] at h
      exact List.mem_cons.mp h
    · by_cases h2 : o.id = x.id
      · simp only [insertObj, if_neg h1, if_pos h2] at h
        rcases List.mem_cons.mp h with h | h
        · exact Or.inl h
        · exact Or.inr (List.mem_cons_of_mem _ h)
      · simp only [insertObj, if_neg h1, if_neg h2] at h
        rcases List.mem_cons.mp h with h | h
        · exact Or.inr (h ▸ List.mem_cons_self _ _)
        · rcases ih h with h' | h'
          · exact Or.inl h'
          · exact Or.inr (List.mem_cons_of_mem _ h')

lemma pairwise_insertObj {o : PlacedObject} {l : List PlacedObject}
    (hp : l.Pairwise (fun a b => a.id < b.id)) :
    (insertObj o l).Pairwise (fun a b => a.id < b.id) := by
  induction l with
  | nil => simp [insertObj]
  | cons x xs ih =>
    rcases List.pairwise_cons.mp hp with ⟨hx, hxs⟩
    by_cases h1 : o.id < x.id
    · simp only [insertObj, if_pos h1]
      refine List.pairwise_cons.mpr ⟨?_, hp⟩
      intro b hb
      rcases List.mem_cons.mp hb with rfl | hb
      · exact h1
      · exact lt_trans h1 (hx b hb)
    · by_cases h2 : o.id = x.id
      · simp only [insertObj, if_neg h1, if_pos h2]
        exact List.pairwise_cons.mpr ⟨fun b hb => h2 ▸ hx b hb, hxs⟩
      · simp only [insertObj, if_neg h1, if_neg h2]
        refine List.pairwise_cons.mpr ⟨?_, ih hxs⟩
        intro b hb
        rcases mem_insertObj hb with rfl | hb
        · exact lt_of_le_of_ne (not_lt.mp h1) (Ne.symm h2)
        · exact hx b hb

lemma pairwise_removeObj {i : Nat} {l : List PlacedObject}
    (hp : l.Pairwise (fun a b => a.id < b.id)) :
    (removeObj i l).Pairwise (fun a b => a.id < b.id) :=
  hp.filter _

lemma mem_removeObj {a : PlacedObject} {i : Nat} {l : List PlacedObject}
    (h : a ∈ removeObj i l) : a ∈ l :=
  List.mem_of_mem_filter h

lemma removeObj_eq_self {i : Nat} {l : List PlacedObject}
    (h : ∀ x ∈ l, x.id ≠ i) : removeObj i l = l :=
  List.filter_eq_self.mpr (fun a ha => by simpa using h a ha)

lemma removeObj_cons_self {i : Nat} {y : PlacedObject} (hy : y.id = i)
    (l : List PlacedObject) : removeObj i (y :: l) = removeObj i l := by
  simp [removeObj, hy]

lemma removeObj_cons_ne {i : Nat} {y : PlacedObject} (hy : y.id ≠ i)
    (l : List PlacedObject) : removeObj i (y :: l) = y :: removeObj i l := by
  simp [removeObj, hy]

lemma removeObj_insertObj {o : PlacedObject} {l : List PlacedObject}
    (h : ∀ x ∈ l, x.id ≠ o.id) : removeObj o.id (insertObj o l) = l := by
  induction l with
  | nil => simp [insertObj, removeObj]
  | cons x xs ih =>
    have hx : x.id ≠ o.id := h x (List.mem_cons_self _ _)
    have hxs : ∀ y ∈ xs, y.id ≠ o.id := fun y hy => h y (List.mem_cons_of_mem _ hy)
    by_cases h1 : o.id < x.id
    · simp only [insertObj, if_pos h1]
      rw [removeObj_cons_self rfl, removeObj_cons_ne hx, removeObj_eq_self hxs]
    · by_cases h2 : o.id = x.id
      · exact absurd h2.symm hx
      · simp only [insertObj, if_neg h1, if_neg h2]
        rw [removeObj_cons_ne hx, ih hxs]

lemma insertObj_eq_cons {o : PlacedObject} {l : List PlacedObject}
    (h : ∀ b ∈ l, o.id < b.id) : insertObj o l = o :: l := by
  cases l with
  | nil => rfl
  | cons x xs => simp [insertObj, h x (List.mem_cons_self _ _)]

lemma insertObj_eq_append {o : PlacedObject} {l : List PlacedObject}
    (h : ∀ x ∈ l, x.id < o.id) : insertObj o l = l ++ [o] := by
  induction l with
  | nil => simp [insertObj]
  | cons x xs ih =>
    have hx := h x (List.mem_cons_self _ _)
    have h1 : ¬ o.id < x.id := by omega
    have h2 : ¬ o.id = x.id := by omega
    simp [insertObj, h1, h2, ih (fun y hy => h y (List.mem_cons_of_mem _ hy))]

lemma findObj_mem {i : Nat} {l : List PlacedObject} {o : PlacedObject}
    (h : findObj i l = some o) : o ∈ l ∧ o.id = i := by
  refine ⟨List.mem_of_find?_eq_some h, ?_⟩
  have := List.find?_some h
  simpa using this

lemma insertObj_insertObj_same {o o' : PlacedObject} {l : List PlacedObject}
    (h : o.id = o'.id) : insertObj o (insertObj o' l) = insertObj o l := by
  induction l with
  | nil => simp [insertObj, h]
  | cons x xs ih =>
    by_cases h1 : o'.id < x.id
    · have h1' : o.id < x.id := h ▸ h1
      simp [insertObj, h1, h1', lt_irrefl, h]
    · by_cases h2 : o'.id = x.id
      · have h1' : ¬ o.id < x.id := by rw [h]; exact h1
        have h2' : o.id = x.id := h.trans h2
        simp [insertObj, h1, h2, h1', h2', h, lt_irrefl]
      · have h1' : ¬ o.id < x.id := by rw [h]; exact h1
        have h2' : ¬ o.id = x.id := by rw [h]; exact h2
        simp [insertObj, h1, h2, h1', h2', ih]

lemma insertObj_found {i : Nat} {l : List PlacedObject} {o : PlacedObject}
    (hp : l.Pairwise (fun a b => a.id < b.id))
    (hf : findObj i l = some o) : insertObj o l = l := by
  induction l with
  | nil => simp [findObj] at hf
  | cons x xs ih =>
    rcases List.pairwise_cons.mp hp with ⟨hx, hxs⟩
    by_cases hxi : x.id = i
    · have : o = x := by
        have := hf
        rw [findObj, List.find?_cons_of_pos _ (by simpa using hxi)] at this
        exact (Option.some_inj.mp this).symm
      subst this
      simp [insertObj, lt_irrefl]
    · have hf' : findObj i xs = some o := by
        have := hf
        rwa [findObj, List.find?_cons_of_neg _ (by simpa using hxi)] at this
      have hoi : o.id = i := (findObj_mem hf').2
      have hmem : o ∈ xs := (findObj_mem hf').1
      have hlt : x.id < o.id := hx o hmem
      have h1 : ¬ o.id < x.id := by omega
      have h2 : ¬ o.id = x.id := by omega
      simp [insertObj, h1, h2, ih hxs hf']

lemma insertObj_removeObj_found {i : Nat} {l : List PlacedObject} {o : PlacedObject}
    (hp : l.Pairwise (fun a b => a.id < b.id))
    (hf : findObj i l = some o) : insertObj o (removeObj i l) = l := by
  induction l with
  | nil => simp [findObj] at hf
  | cons x xs ih =>
    rcases List.pairwise_cons.mp hp with ⟨hx, hxs⟩
    by_cases hxi : x.id = i
    · have hox : o = x := by
        have := hf
        rw [findObj, List.find?_cons_of_pos _ (by simpa using hxi)] at this
        exact (Option.some_inj.mp this).symm
      subst hox
      rw [removeObj_cons_self hxi, removeObj_eq_self (fun y hy => by
        have := hx y hy
        omega)]
      exact insertObj_eq_cons hx
    · have hf' : findObj i xs = some o := by
        have := hf
        rwa [findObj, List.find?_cons_of_neg _ (by simpa using hxi)] at this
      have hmem : o ∈ xs := (findObj_mem hf').1
      have hlt : x.id < o.id := hx o hmem
      have h1 : ¬ o.id < x.id := by omega
      have h2 : ¬ o.id = x.id := by omega
      rw [removeObj_cons_ne hxi]
      simp only [insertObj, if_neg h1, if_neg h2]
      rw [ih hxs hf']

lemma objOfSnap_snapOfObj (o : PlacedObject) : objOfSnap o.id (snapOfObj o) = o := rfl

lemma insertObj_id_lt {o : PlacedObject} {l : List PlacedObject} {n : Nat}
    (hl : ∀ x ∈ l, x.id < n) (ho : o.id < n) : ∀ x ∈ insertObj o l, x.id < n :=
  fun x hx => (mem_insertObj hx).elim (fun h => h ▸ ho) (hl x)

/-! ## Round-trip lemmas for recorded actions -/

lemma storeWF_performAction {st : ObjectStore} (hwf : StoreWF st) (r : ActionRequest) :
    StoreWF (performAction st r).1 := by
  rcases hwf with ⟨hp, hb⟩
  cases r with
  | place snap =>
    refine ⟨pairwise_insertObj hp, insertObj_id_lt (fun x hx => ?_) (Nat.lt_succ_self _)⟩
    exact lt_trans (hb x hx) (Nat.lt_succ_self _)
  | move i pos normal =>
    cases hfo : findObj i st.objects with
    | none => simpa [performAction, hfo] using ⟨hp, hb⟩
    | some o =>
      have hoid : o.id < st.nextId := hb o (findObj_mem hfo).1
      constructor
      · simpa [performAction, hfo] using pairwise_insertObj hp
      · simp only [performAction, hfo]
        exact insertObj_id_lt hb hoid
  | rotate i delta =>
    cases hfo : findObj i st.objects with
    | none => simpa [performAction, hfo] using ⟨hp, hb⟩
    | some o =>
      have hoid : o.id < st.nextId := hb o (findObj_mem hfo).1
      constructor
      · simpa [performAction, hfo] using pairwise_insertObj hp
      · simp only [performAction, hfo]
        exact insertObj_id_lt hb hoid
  | scaleBy i delta =>
    cases hfo : findObj i st.objects with
    | none => simpa [performAction, hfo] using ⟨hp, hb⟩
    | some o =>
      have hoid : o.id < st.nextId := hb o (findObj_mem hfo).1
      constructor
      · simpa [performAction, hfo] using pairwise_insertObj hp
      · simp only [performAction, hfo]
        exact insertObj_id_lt hb hoid
  | delete i =>
    cases hfo : findObj i st.objects with
    | none => simpa [performAction, hfo] using ⟨hp, hb⟩
    | some o =>
      constructor
      · simpa [performAction, hfo] using pairwise_removeObj hp
      · simp only [performAction, hfo]
        exact fun x hx => hb x (mem_removeObj hx)

lemma applies_entry {st : ObjectStore} {r : ActionRequest} (h : applies st r = true) :
    ((performAction st r).2).isSome = true := by
  cases r with
  | place snap => rfl
  | move i pos normal =>
    cases hfo : findObj i st.objects with
    | none => simp [applies, hfo] at h
    | some o => simp [performAction, hfo]
  | rotate i delta =>
    cases hfo : findObj i st.objects with
    | none => simp [applies, hfo] at h
    | some o => simp [performAction, hfo]
  | scaleBy i delta =>
    cases hfo : findObj i st.objects with
    | none => simp [applies, hfo] at h
    | some o => simp [performAction, hfo]
  | delete i =>
    cases hfo : findObj i st.objects with
    | none => simp [applies, hfo] at h
    | some o => simp [performAction, hfo]

/-- Undoing the entry recorded by an action restores the objects exactly
as they were before the action. -/
lemma undo_inverse {st : ObjectStore} (hwf : StoreWF st) (r : ActionRequest) :
    ∀ e, (performAction st r).2 = some e →
      undoApplyObjects e (performAction st r).1.objects = st.objects := by
  rcases hwf with ⟨hp, hb⟩
  intro e he
  cases r with
  | place snap =>
    simp only [performAction] at he ⊢
    cases he
    show removeObj (objOfSnap st.nextId snap).id
      (insertObj (objOfSnap st.nextId snap) st.objects) = st.objects
    exact removeObj_insertObj (fun x hx => Nat.ne_of_lt (hb x hx))
  | move i pos normal =>
    cases hfo : findObj i st.objects with
    | none => simp [performAction, hfo] at he
    | some o =>
      simp only [performAction, hfo] at he ⊢
      cases he
      simp only [undoApplyObjects]
      have h1 : objOfSnap i (snapOfObj o) = o := by
        rw [← (findObj_mem hfo).2]; exact objOfSnap_snapOfObj o
      rw [h1, insertObj_insertObj_same
        (show o.id = ({ o with position := pos, surfaceNormal := normal } : PlacedObject).id
          from rfl),
        insertObj_found hp hfo]
  | rotate i delta =>
    cases hfo : findObj i st.objects with
    | none => simp [performAction, hfo] at he
    | some o =>
      simp only [performAction, hfo] at he ⊢
      cases he
      simp only [undoApplyObjects]
      have h1 : objOfSnap i (snapOfObj o) = o := by
        rw [← (findObj_mem hfo).2]; exact objOfSnap_snapOfObj o
      rw [h1, insertObj_insertObj_same
        (show o.id = ({ o with yaw := applyRotation o.yaw delta } : PlacedObject).id from rfl),
        insertObj_found hp hfo]
  | scaleBy i delta =>
    cases hfo : findObj i st.objects with
    | none => simp [performAction, hfo] at he
    | some o =>
      simp only [performAction, hfo] at he ⊢
      cases he
      simp only [undoApplyObjects]
      have h1 : objOfSnap i (snapOfObj o) = o := by
        rw [← (findObj_mem hfo).2]; exact objOfSnap_snapOfObj o
      rw [h1, insertObj_insertObj_same
        (show o.id = ({ o with scale := applyScale o.scale delta } : PlacedObject).id from rfl),
        insertObj_found hp hfo]
  | delete i =>
    cases hfo : findObj i st.objects with
    | none => simp [performAction, hfo] at he
    | some o =>
      simp only [performAction, hfo] at he ⊢
      cases he
      simp only [undoApplyObjects]
      have h1 : objOfSnap i (snapOfObj o) = o := by
        rw [← (findObj_mem hfo).2]; exact objOfSnap_snapOfObj o
      rw [h1, insertObj_removeObj_found hp hfo]

/-- Redoing the entry recorded by an action reproduces exactly the
objects the action produced. -/
lemma redo_forward (st : ObjectStore) (r : ActionRequest) :
    ∀ e, (performAction st r).2 = some e →
      redoApplyObjects e st.objects = (performAction st r).1.objects := by
  intro e he
  cases r with
  | place snap =>
    simp only [performAction] at he ⊢
    cases he
    rfl
  | move i pos normal =>
    cases hfo : findObj i st.objects with
    | none => simp [performAction, hfo] at he
    | some o =>
      simp only [performAction, hfo] at he ⊢
      cases he
      simp only [redoApplyObjects]
      have hid : o.id = i := (findObj_mem hfo).2
      have h2 : objOfSnap i (snapOfObj { o with position := pos, surfaceNormal := normal })
          = { o with position := pos, surfaceNormal := normal } := by
        rw [← hid]; rfl
      rw [h2]
  | rotate i delta =>
    cases hfo : findObj i st.objects with
    | none => simp [performAction, hfo] at he
    | some o =>
      simp only [performAction, hfo] at he ⊢
      cases he
      simp only [redoApplyObjects]
      have hid : o.id = i := (findObj_mem hfo).2
      have h2 : objOfSnap i (snapOfObj { o with yaw := applyRotation o.yaw delta })
          = { o with yaw := applyRotation o.yaw delta } := by
        rw [← hid]; rfl
      rw [h2]
  | scaleBy i delta =>
    cases hfo : findObj i st.objects with
    | none => simp [performAction, hfo] at he
    | some o =>
      simp only [performAction, hfo] at he ⊢
      cases he
      simp only [redoApplyObjects]
      have hid : o.id = i := (findObj_mem hfo).2
      have h2 : objOfSnap i (snapOfObj { o with scale := applyScale o.scale delta })
          = { o with scale := applyScale o.scale delta } := by
        rw [← hid]; rfl
      rw [h2]
  | delete i =>
    cases hfo : findObj i st.objects with
    | none => simp [performAction, hfo] at he
    | some o =>
      simp only [performAction, hfo] at he ⊢
      cases he
      rfl

/-! ## Undo and redo over whole recorded-action sequences -/

/-- The store evolution of a recorded-action sequence, ignoring history. -/
def execActions (st : ObjectStore) : List ActionRequest → ObjectStore
  | [] => st
  | r :: rs => execActions (performAction st r).1 rs

lemma runActions_fst (rs : List ActionRequest) :
    ∀ (st : ObjectStore) (h : History), (runActions (st, h) rs).1 = execActions st rs := by
  induction rs with
  | nil => intro st h; rfl
  | cons r rest ih =>
    intro st h
    simp only [runActions, List.foldl_cons, execActions]
    cases hpe : performAction st r with
    | mk st' oe =>
      cases oe with
      | some e =>
        have hdo : doAction (st, h) r = (st', h.push e) := by
          unfold doAction
          rw [show (st, h).1 = st from rfl, hpe]
        rw [hdo]
        exact ih st' (h.push e)
      | none =>
        have hdo : doAction (st, h) r = (st', h) := by
          unfold doAction
          rw [show (st, h).1 = st from rfl, hpe]
        rw [hdo]
        exact ih st' h

lemma push_small {h : History} (e : HistoryEntry)
    (hl : h.undoStack.length < HISTORY_CAP) :
    h.push e = ⟨e :: h.undoStack, []⟩ := by
  have hnot : ¬ (e :: h.undoStack).length > HISTORY_CAP := by
    simp only [List.length_cons]
    omega
  simp only [History.push, List.length_cons]
  rw [if_neg (by simpa using hnot)]

lemma push_undoStack {h : History} (e : HistoryEntry)
    (hl : h.undoStack.length ≤ HISTORY_CAP) :
    (h.push e).undoStack = (e :: h.undoStack).take HISTORY_CAP := by
  by_cases hgt : (e :: h.undoStack).length > HISTORY_CAP
  · have hlen : (e :: h.undoStack).length = HISTORY_CAP + 1 := by
      simp only [List.length_cons] at hgt ⊢
      omega
    simp only [History.push, if_pos hgt]
    rw [List.dropLast_eq_take, hlen, Nat.add_sub_cancel]
  · simp only [History.push, if_neg hgt]
    rw [List.take_of_length_le (by omega)]

lemma push_redoStack (h : History) (e : HistoryEntry) : (h.push e).redoStack = [] := rfl

/-- Undoing once per recorded action, after running an applicable action
sequence that fits in the history capacity, restores the original
objects and parks all entries on the redo stack in execution order. -/
lemma undoN_runActions (rs : List ActionRequest) :
    ∀ (st : ObjectStore) (h : History), StoreWF st → appliesAll st rs = true →
      h.redoStack = [] → h.undoStack.length + rs.length ≤ HISTORY_CAP →
      doUndo^[rs.length] (runActions (st, h) rs)
        = (⟨st.objects, (execActions st rs).nextId⟩, ⟨h.undoStack, entriesOf st rs⟩) := by
  induction rs with
  | nil =>
    intro st h hwf _ hr _
    cases st with
    | mk objs n =>
      cases h with
      | mk u rdo =>
        simp only [List.length_nil, Function.iterate_zero, id_eq, runActions, List.foldl_nil,
          execActions, entriesOf]
        simp only [History.redoStack] at hr
        rw [hr]
  | cons r rest ih =>
    intro st h hwf happ hr hlen
    obtain ⟨h1, h2⟩ : applies st r = true ∧ appliesAll (performAction st r).1 rest = true := by
      simpa [appliesAll, Bool.and_eq_true] using happ
    obtain ⟨e1, he1⟩ := Option.isSome_iff_exists.mp (applies_entry h1)
    have hpe : performAction st r = ((performAction st r).1, some e1) := by
      rw [← he1]
    have hdo : doAction (st, h) r = ((performAction st r).1, h.push e1) := by
      unfold doAction
      rw [show (st, h).1 = st from rfl, hpe]
    have hpush : h.push e1 = ⟨e1 :: h.undoStack, []⟩ :=
      push_small e1 (by simp only [List.length_cons] at hlen; omega)
    have hrun : runActions (st, h) (r :: rest)
        = runActions ((performAction st r).1, h.push e1) rest := by
      simp only [runActions, List.foldl_cons, hdo]
    have hih := ih (performAction st r).1 (h.push e1) (storeWF_performAction hwf r) h2
      (by rw [hpush]) (by rw [hpush]; simp only [History.undoStack, List.length_cons]
                          simp only [List.length_cons] at hlen; omega)
    have hent : entriesOf st (r :: rest) = e1 :: entriesOf (performAction st r).1 rest := by
      simp only [entriesOf]
      rw [hpe]
    have hexec : execActions st (r :: rest) = execActions (performAction st r).1 rest := rfl
    rw [show (r :: rest).length = rest.length + 1 from rfl, Function.iterate_succ_apply',
      hrun, hih, hpush]
    simp only [History.undoStack]
    rw [hent, hexec]
    simp only [doUndo, History.popUndo]
    rw [undo_inverse hwf r e1 he1]

/-- After running an applicable action sequence that fits in the history
capacity, the history holds exactly the recorded entries, newest first,
with an empty redo stack. -/
lemma runActions_snd (rs : List ActionRequest) :
    ∀ (st : ObjectStore) (h : History), appliesAll st rs = true →
      h.redoStack = [] → h.undoStack.length + rs.length ≤ HISTORY_CAP →
      (runActions (st, h) rs).2 = ⟨(entriesOf st rs).reverse ++ h.undoStack, []⟩ := by
  induction rs with
  | nil =>
    intro st h _ hr _
    cases h with
    | mk u rdo =>
      simp only [runActions, List.foldl_nil, entriesOf, List.reverse_nil, List.nil_append]
      simp only [History.redoStack] at hr
      rw [hr]
  | cons r rest ih =>
    intro st h happ hr hlen
    obtain ⟨h1, h2⟩ : applies st r = true ∧ appliesAll (performAction st r).1 rest = true := by
      simpa [appliesAll, Bool.and_eq_true] using happ
    obtain ⟨e1, he1⟩ := Option.isSome_iff_exists.mp (applies_entry h1)
    have hpe : performAction st r = ((performAction st r).1, some e1) := by
      rw [← he1]
    have hdo : doAction (st, h) r = ((performAction st r).1, h.push e1) := by
      unfold doAction
      rw [show (st, h).1 = st from rfl, hpe]
    have hpush : h.push e1 = ⟨e1 :: h.undoStack, []⟩ :=
      push_small e1 (by simp only [List.length_cons] at hlen; omega)
    have hent : entriesOf st (r :: rest) = e1 :: entriesOf (performAction st r).1 rest := by
      simp only [entriesOf]
      rw [hpe]
    have hih := ih (performAction st r).1 (h.push e1) h2
      (by rw [hpush]) (by rw [hpush]; simp only [History.undoStack, List.length_cons]
                          simp only [List.length_cons] at hlen; omega)
    simp only [runActions, List.foldl_cons, hdo] at hih ⊢
    rw [hih, hpush, hent]
    simp only [History.undoStack, List.reverse_cons, List.append_assoc, List.singleton_append]

/-- Redoing once per recorded entry replays the whole action sequence
and moves the entries back onto the undo stack. -/
lemma redoN_entries (rs : List ActionRequest) :
    ∀ (st : ObjectStore) (u : List HistoryEntry) (n : Nat), appliesAll st rs = true →
      doRedo^[rs.length] ((⟨st.objects, n⟩ : ObjectStore), (⟨u, entriesOf st rs⟩ : History))
        = (⟨(execActions st rs).objects, n⟩, ⟨(entriesOf st rs).reverse ++ u, []⟩) := by
  induction rs with
  | nil =>
    intro st u n _
    simp [entriesOf, execActions]
  | cons r rest ih =>
    intro st u n happ
    obtain ⟨h1, h2⟩ : applies st r = true ∧ appliesAll (performAction st r).1 rest = true := by
      simpa [appliesAll, Bool.and_eq_true] using happ
    obtain ⟨e1, he1⟩ := Option.isSome_iff_exists.mp (applies_entry h1)
    have hpe : performAction st r = ((performAction st r).1, some e1) := by
      rw [← he1]
    have hent : entriesOf st (r :: rest) = e1 :: entriesOf (performAction st r).1 rest := by
      simp only [entriesOf]
      rw [hpe]
    have hexec : execActions st (r :: rest) = execActions (performAction st r).1 rest := rfl
    rw [hent, hexec, show (r :: rest).length = rest.length + 1 from rfl,
      Function.iterate_succ_apply]
    have hstep : doRedo ((⟨st.objects, n⟩ : ObjectStore),
        (⟨u, e1 :: entriesOf (performAction st r).1 rest⟩ : History))
        = (⟨(performAction st r).1.objects, n⟩,
           ⟨e1 :: u, entriesOf (performAction st r).1 rest⟩) := by
      simp only [doRedo, History.popRedo]
      rw [redo_forward st r e1 he1]
    rw [hstep, ih (performAction st r).1 (e1 :: u) n h2]
    simp only [List.reverse_cons, List.append_assoc, List.singleton_append]

/-! ## Characterization of repeated pushes (history bound) -/

lemma take_append_take {α : Type} (a b : List α) (n : Nat) :
    (a ++ b.take n).take n = (a ++ b).take n := by
  rw [List.take_append_eq_append_take, List.take_append_eq_append_take, List.take_take]
  congr 1
  rw [Nat.min_eq_left (Nat.sub_le n a.length)]

lemma pushAll_char (es : List HistoryEntry) :
    ∀ h : History, h.undoStack.length ≤ HISTORY_CAP →
      (h.pushAll es).undoStack = (es.reverse ++ h.undoStack).take HISTORY_CAP ∧
      (h.pushAll es).undoStack.length ≤ HISTORY_CAP ∧
      (es ≠ [] → (h.pushAll es).redoStack = []) := by
  induction es with
  | nil =>
    intro h hl
    refine ⟨?_, hl, fun hne => absurd rfl hne⟩
    simp only [List.reverse_nil, List.nil_append]
    exact (List.take_of_length_le hl).symm
  | cons e rest ih =>
    intro h hl
    have hstep : h.pushAll (e :: rest) = (h.push e).pushAll rest := rfl
    have hpl : (h.push e).undoStack.length ≤ HISTORY_CAP := by
      rw [push_undoStack e hl]
      exact List.length_take_le _ _
    obtain ⟨hu, hb, hr⟩ := ih (h.push e) hpl
    refine ⟨?_, by rwa [← hstep] at hb, fun _ => ?_⟩
    · rw [hstep, hu, push_undoStack e hl]
      rw [take_append_take]
      simp only [List.reverse_cons, List.append_assoc, List.singleton_append]
    · cases rest with
      | nil => rw [hstep]; rfl
      | cons r rs => rw [hstep]; exact hr (by simp)

/-! ## The engine invariant -/

/-- The governing scale contract: the scale lies in [0.1, 5.0]. -/
def scaleInRange (q : ℚ) : Prop := MIN_SCALE ≤ q ∧ q ≤ MAX_SCALE

lemma applyScale_mem (s d : ℚ) : scaleInRange (applyScale s d) := by
  unfold applyScale scaleInRange
  refine ⟨le_max_left _ _, max_le ?_ (min_le_left _ _)⟩
  unfold MIN_SCALE MAX_SCALE
  norm_num

lemma scaleInRange_one : scaleInRange 1 := by
  unfold scaleInRange MIN_SCALE MAX_SCALE
  norm_num

/-- Health of a history entry relative to the store: its object id has
been allocated, and every recorded snapshot satisfies the scale
contract. -/
def entryOK (nid : Nat) (e : HistoryEntry) : Prop :=
  e.objectId < nid
  ∧ (∀ s, e.before = some s → scaleInRange s.scale)
  ∧ (∀ s, e.after = some s → scaleInRange s.scale)

lemma entryOK_mono {n n' : Nat} (h : n ≤ n') {e : HistoryEntry} (he : entryOK n e) :
    entryOK n' e :=
  ⟨lt_of_lt_of_le he.1 h, he.2.1, he.2.2⟩

lemma mem_push {h : History} {e x : HistoryEntry}
    (hx : x ∈ (h.push e).undoStack) : x = e ∨ x ∈ h.undoStack := by
  simp only [History.push] at hx
  split at hx
  · have := List.dropLast_subset _ hx
    exact List.mem_cons.mp this
  · exact List.mem_cons.mp hx

/-- Invariant of the placement engine, preserved by every event.  The
first four fields express the ghost/selection mutual-exclusion contract
of the mode, the rest carry store and history health. -/
structure Inv (s : EngineState) : Prop where
  ghost_mode : ∀ g, s.ghost = some g → s.mode = Mode.previewing
  mode_ghost : s.mode = Mode.previewing → s.ghost.isSome
  sel_mode : ∀ i, s.selection = some i → s.mode = Mode.adjusting
  mode_sel : s.mode = Mode.adjusting → s.selection.isSome
  wf : StoreWF s.store
  ghost_scale : ∀ g, s.ghost = some g → scaleInRange g.scale
  ghost_normal : ∀ g, s.ghost = some g → g.valid = true → g.surfaceNormal.isSome
  obj_scale : ∀ o ∈ s.store.objects, scaleInRange o.scale
  undo_ok : ∀ e ∈ s.history.undoStack, entryOK s.store.nextId e
  redo_ok : ∀ e ∈ s.history.redoStack, entryOK s.store.nextId e
  drag_ok : ∀ i snap, s.dragging = some (i, snap) → i < s.store.nextId ∧ scaleInRange snap.scale

lemma inv_init : Inv EngineState.init := by
  constructor <;> simp [EngineState.init, StoreWF, ObjectStore.empty, History.empty]

/-- The request preserves the scale contract of its payload. -/
def reqScaleOK : ActionRequest → Prop
  | .place snap => scaleInRange snap.scale
  | _ => True

lemma performAction_nextId_le (st : ObjectStore) (r : ActionRequest) :
    st.nextId ≤ (performAction st r).1.nextId := by
  cases r with
  | place snap => exact Nat.le_succ _
  | move i pos normal => cases hfo : findObj i st.objects <;> simp [performAction, hfo]
  | rotate i delta => cases hfo : findObj i st.objects <;> simp [performAction, hfo]
  | scaleBy i delta => cases hfo : findObj i st.objects <;> simp [performAction, hfo]
  | delete i => cases hfo : findObj i st.objects <;> simp [performAction, hfo]

lemma obj_scale_performAction {st : ObjectStore}
    (hs : ∀ o ∈ st.objects, scaleInRange o.scale) {r : ActionRequest}
    (hr : reqScaleOK r) : ∀ o ∈ (performAction st r).1.objects, scaleInRange o.scale := by
  cases r with
  | place snap =>
    intro o ho
    rcases mem_insertObj ho with rfl | ho
    · exact hr
    · exact hs o ho
  | move i pos normal =>
    cases hfo : findObj i st.objects with
    | none => simpa [performAction, hfo] using hs
    | some o =>
      intro x hx
      simp only [performAction, hfo] at hx
      rcases mem_insertObj hx with rfl | hx
      · exact hs o (findObj_mem hfo).1
      · exact hs x hx
  | rotate i delta =>
    cases hfo : findObj i st.objects with
    | none => simpa [performAction, hfo] using hs
    | some o =>
      intro x hx
      simp only [performAction, hfo] at hx
      rcases mem_insertObj hx with rfl | hx
      · exact hs o (findObj_mem hfo).1
      · exact hs x hx
  | scaleBy i delta =>
    cases hfo : findObj i st.objects with
    | none => simpa [performAction, hfo] using hs
    | some o =>
      intro x hx
      simp only [performAction, hfo] at hx
      rcases mem_insertObj hx with rfl | hx
      · exact applyScale_mem _ _
      · exact hs x hx
  | delete i =>
    cases hfo : findObj i st.objects with
    | none => simpa [performAction, hfo] using hs
    | some o =>
      intro x hx
      simp only [performAction, hfo] at hx
      exact hs x (mem_removeObj hx)

lemma entry_ok_performAction {st : ObjectStore} (hwf : StoreWF st)
    (hs : ∀ o ∈ st.objects, scaleInRange o.scale) {r : ActionRequest}
    (hr : reqScaleOK r) :
    ∀ e, (performAction st r).2 = some e → entryOK (performAction st r).1.nextId e := by
  intro e he
  cases r with
  | place snap =>
    simp only [performAction] at he ⊢
    cases he
    unfold entryOK
    refine ⟨Nat.lt_succ_self _, ?_, ?_⟩
    · intro s1 hb1
      cases hb1
    · intro s1 hb1
      cases hb1
      exact hr
  | move i pos normal =>
    cases hfo : findObj i st.objects with
    | none => simp [performAction, hfo] at he
    | some o =>
      simp only [performAction, hfo] at he ⊢
      cases he
      have hio : o.id = i := (findObj_mem hfo).2
      have hbound : i < st.nextId := hio ▸ hwf.2 o (findObj_mem hfo).1
      have hsc : scaleInRange o.scale := hs o (findObj_mem hfo).1
      unfold entryOK
      refine ⟨hbound, ?_, ?_⟩
      · intro s1 hb1
        cases hb1
        exact hsc
      · intro s1 hb1
        cases hb1
        exact hsc
  | rotate i delta =>
    cases hfo : findObj i st.objects with
    | none => simp [performAction, hfo] at he
    | some o =>
      simp only [performAction, hfo] at he ⊢
      cases he
      have hio : o.id = i := (findObj_mem hfo).2
      have hbound : i < st.nextId := hio ▸ hwf.2 o (findObj_mem hfo).1
      have hsc : scaleInRange o.scale := hs o (findObj_mem hfo).1
      unfold entryOK
      refine ⟨hbound, ?_, ?_⟩
      · intro s1 hb1
        cases hb1
        exact hsc
      · intro s1 hb1
        cases hb1
        exact hsc
  | scaleBy i delta =>
    cases hfo : findObj i st.objects with
    | none => simp [performAction, hfo] at he
    | some o =>
      simp only [performAction, hfo] at he ⊢
      cases he
      have hio : o.id = i := (findObj_mem hfo).2
      have hbound : i < st.nextId := hio ▸ hwf.2 o (findObj_mem hfo).1
      have hsc : scaleInRange o.scale := hs o (findObj_mem hfo).1
      unfold entryOK
      refine ⟨hbound, ?_, ?_⟩
      · intro s1 hb1
        cases hb1
        exact hsc
      · intro s1 hb1
        cases hb1
        exact applyScale_mem _ _
  | delete i =>
    cases hfo : findObj i st.objects with
    | none => simp [performAction, hfo] at he
    | some o =>
      simp only [performAction, hfo] at he ⊢
      cases he
      have hio : o.id = i := (findObj_mem hfo).2
      have hbound : i < st.nextId := hio ▸ hwf.2 o (findObj_mem hfo).1
      have hsc : scaleInRange o.scale := hs o (findObj_mem hfo).1
      unfold entryOK
      refine ⟨hbound, ?_, ?_⟩
      · intro s1 hb1
        cases hb1
        exact hsc
      · intro s1 hb1
        cases hb1

lemma recordAction_eq (s : EngineState) (r : ActionRequest) :
    recordAction s r = { s with
      store := (performAction s.store r).1
      history :=
        match (performAction s.store r).2 with
        | some e => s.history.push e
        | none => s.history } := by
  cases hpe : performAction s.store r with
  | mk st' oe => cases oe <;> simp [recordAction, hpe]

lemma inv_recordAction {s : EngineState} (hi : Inv s) {r : ActionRequest}
    (hr : reqScaleOK r) : Inv (recordAction s r) := by
  rw [recordAction_eq]
  have hle := performAction_nextId_le s.store r
  constructor
  · exact fun g hg => hi.ghost_mode g hg
  · exact fun hm => hi.mode_ghost hm
  · exact fun i hix => hi.sel_mode i hix
  · exact fun hm => hi.mode_sel hm
  · exact storeWF_performAction hi.wf r
  · exact fun g hg => hi.ghost_scale g hg
  · exact fun g hg => hi.ghost_normal g hg
  · exact obj_scale_performAction hi.obj_scale hr
  · intro e he
    cases hpe : (performAction s.store r).2 with
    | none =>
      simp only [hpe] at he
      exact entryOK_mono hle (hi.undo_ok e he)
    | some e1 =>
      simp only [hpe] at he
      rcases mem_push he with rfl | he
      · exact entry_ok_performAction hi.wf hi.obj_scale hr e hpe
      · exact entryOK_mono hle (hi.undo_ok e he)
  · intro e he
    cases hpe : (performAction s.store r).2 with
    | none =>
      simp only [hpe] at he
      exact entryOK_mono hle (hi.redo_ok e he)
    | some e1 =>
      simp only [hpe, push_redoStack] at he
      cases he
  · intro i snap hd
    obtain ⟨h1, h2⟩ := hi.drag_ok i snap hd
    exact ⟨lt_of_lt_of_le h1 hle, h2⟩

lemma sel_none_of_mode_ne {s : EngineState} (hi : Inv s)
    (hm : s.mode ≠ Mode.adjusting) : s.selection = none := by
  cases hsq : s.selection with
  | none => rfl
  | some i => exact absurd (hi.sel_mode i hsq) hm

lemma ghost_none_of_mode_ne {s : EngineState} (hi : Inv s)
    (hm : s.mode ≠ Mode.previewing) : s.ghost = none := by
  cases hgq : s.ghost with
  | none => rfl
  | some g => exact absurd (hi.ghost_mode g hgq) hm

lemma storeWF_undoApply {st : ObjectStore} (hwf : StoreWF st) {e : HistoryEntry}
    (he : e.objectId < st.nextId) :
    StoreWF ⟨undoApplyObjects e st.objects, st.nextId⟩ := by
  cases hb : e.before with
  | none =>
    simp only [undoApplyObjects, hb]
    exact ⟨pairwise_removeObj hwf.1, fun o ho => hwf.2 o (mem_removeObj ho)⟩
  | some snap =>
    simp only [undoApplyObjects, hb]
    exact ⟨pairwise_insertObj hwf.1, insertObj_id_lt hwf.2 he⟩

lemma storeWF_redoApply {st : ObjectStore} (hwf : StoreWF st) {e : HistoryEntry}
    (he : e.objectId < st.nextId) :
    StoreWF ⟨redoApplyObjects e st.objects, st.nextId⟩ := by
  cases hb : e.after with
  | none =>
    simp only [redoApplyObjects, hb]
    exact ⟨pairwise_removeObj hwf.1, fun o ho => hwf.2 o (mem_removeObj ho)⟩
  | some snap =>
    simp only [redoApplyObjects, hb]
    exact ⟨pairwise_insertObj hwf.1, insertObj_id_lt hwf.2 he⟩

lemma obj_scale_undoApply {objs : List PlacedObject}
    (hs : ∀ o ∈ objs, scaleInRange o.scale) {e : HistoryEntry}
    (he : ∀ snap, e.before = some snap → scaleInRange snap.scale) :
    ∀ o ∈ undoApplyObjects e objs, scaleInRange o.scale := by
  cases hb : e.before with
  | none =>
    simp only [undoApplyObjects, hb]
    exact fun o ho => hs o (mem_removeObj ho)
  | some snap =>
    simp only [undoApplyObjects, hb]
    intro o ho
    rcases mem_insertObj ho with rfl | ho
    · exact he snap hb
    · exact hs o ho

lemma obj_scale_redoApply {objs : List PlacedObject}
    (hs : ∀ o ∈ objs, scaleInRange o.scale) {e : HistoryEntry}
    (he : ∀ snap, e.after = some snap → scaleInRange snap.scale) :
    ∀ o ∈ redoApplyObjects e objs, scaleInRange o.scale := by
  cases hb : e.after with
  | none =>
    simp only [redoApplyObjects, hb]
    exact fun o ho => hs o (mem_removeObj ho)
  | some snap =>
    simp only [redoApplyObjects, hb]
    intro o ho
    rcases mem_insertObj ho with rfl | ho
    · exact he snap hb
    · exact hs o ho

/-- Every engine event preserves the invariant. -/
lemma inv_step {s : EngineState} (hi : Inv s) (ev : Event) : Inv (step s ev) := by
  obtain ⟨mo, gh, se, dr, st, hh⟩ := s
  cases ev with
  | selectModel m =>
    cases mo with
    | idle =>
      have hsel : se = none := sel_none_of_mode_ne hi (by intro hc; cases hc)
      subst hsel
      simp only [step]
      refine ⟨?_, ?_, ?_, ?_, hi.wf, ?_, ?_, hi.obj_scale, hi.undo_ok, hi.redo_ok, hi.drag_ok⟩
      · intro g hg; rfl
      · intro _; rfl
      · intro i hix; cases hix
      · intro hc; cases hc
      · intro g hg; cases hg; exact scaleInRange_one
      · intro g hg hv; cases hg; cases hv
    | previewing => exact hi
    | adjusting => exact hi
  | pointerMove hit =>
    cases mo with
    | idle => exact hi
    | adjusting => exact hi
    | previewing =>
      cases gh with
      | none => exact hi
      | some g =>
        simp only [step]
        refine ⟨?_, ?_, ?_, ?_, hi.wf, ?_, ?_, hi.obj_scale, hi.undo_ok, hi.redo_ok, hi.drag_ok⟩
        · intro g1 hg1; rfl
        · intro _; rfl
        · exact fun i hix => hi.sel_mode i hix
        · intro hc; cases hc
        · intro g1 hg1
          cases hg1
          have hgs := hi.ghost_scale g rfl
          cases hit with
          | some h => exact hgs
          | none => exact hgs
        · intro g1 hg1 hv
          cases hg1
          cases hit with
          | some h => rfl
          | none =>
            simp only [updateFromHit] at hv
            cases hv
  | confirm =>
    cases mo with
    | idle => exact hi
    | adjusting => exact hi
    | previewing =>
      cases gh with
      | none => exact hi
      | some g =>
        simp only [step]
        cases hsc : snapshotForCommit g with
        | none => exact hi
        | some tup =>
          obtain ⟨pos, yaw, n, sc⟩ := tup
          have hscale : scaleInRange sc := by
            unfold snapshotForCommit at hsc
            cases hv : g.valid with
            | false => rw [hv] at hsc; simp at hsc
            | true =>
              rw [hv] at hsc
              cases hn : g.surfaceNormal with
              | none => rw [hn] at hsc; simp at hsc
              | some n0 =>
                rw [hn] at hsc
                simp only [if_true, Option.map_some', Option.some.injEq,
                  Prod.mk.injEq] at hsc
                obtain ⟨h1, h2, h3, h4⟩ := hsc
                subst h4
                exact hi.ghost_scale g rfl
          have hrec : Inv (recordAction ⟨Mode.previewing, some g, se, dr, st, hh⟩
              (.place ⟨g.modelRef, pos, yaw, n, sc⟩)) :=
            inv_recordAction hi hscale
          refine ⟨?_, ?_, ?_, ?_, hrec.wf, ?_, ?_, hrec.obj_scale, hrec.undo_ok,
            hrec.redo_ok, hrec.drag_ok⟩
          · intro g1 hg1; cases hg1
          · intro hc; cases hc
          · intro i hix; rfl
          · intro _; rfl
          · intro g1 hg1; cases hg1
          · intro g1 hg1 hv; cases hg1
  | cancel =>
    cases mo with
    | idle => exact hi
    | previewing =>
      simp only [step]
      have hsel : se = none := sel_none_of_mode_ne hi (by intro hc; cases hc)
      subst hsel
      refine ⟨?_, ?_, ?_, ?_, hi.wf, ?_, ?_, hi.obj_scale, hi.undo_ok, hi.redo_ok, hi.drag_ok⟩
      · intro g hg; cases hg
      · intro hc; cases hc
      · intro i hix; cases hix
      · intro hc; cases hc
      · intro g hg; cases hg
      · intro g hg hv; cases hg
    | adjusting =>
      simp only [step]
      have hgn : gh = none := ghost_none_of_mode_ne hi (by intro hc; cases hc)
      subst hgn
      refine ⟨?_, ?_, ?_, ?_, hi.wf, ?_, ?_, hi.obj_scale, hi.undo_ok, hi.redo_ok, ?_⟩
      · intro g hg; cases hg
      · intro hc; cases hc
      · intro i hix; cases hix
      · intro hc; cases hc
      · intro g hg; cases hg
      · intro g hg hv; cases hg
      · intro i snap hd; cases hd
  | rotateCmd delta =>
    cases mo with
    | idle => exact hi
    | previewing =>
      cases gh with
      | none => exact hi
      | some g =>
        simp only [step]
        refine ⟨?_, ?_, ?_, ?_, hi.wf, ?_, ?_, hi.obj_scale, hi.undo_ok, hi.redo_ok, hi.drag_ok⟩
        · intro g1 hg1; rfl
        · intro _; rfl
        · exact fun i hix => hi.sel_mode i hix
        · intro hc; cases hc
        · intro g1 hg1; cases hg1; exact hi.ghost_scale g rfl
        · intro g1 hg1 hv; cases hg1; exact hi.ghost_normal g rfl hv
    | adjusting =>
      cases se with
      | none => exact hi
      | some i =>
        simp only [step]
        exact inv_recordAction hi trivial
  | scaleCmd delta =>
    cases mo with
    | idle => exact hi
    | previewing =>
      cases gh with
      | none => exact hi
      | some g =>
        simp only [step]
        refine ⟨?_, ?_, ?_, ?_, hi.wf, ?_, ?_, hi.obj_scale, hi.undo_ok, hi.redo_ok, hi.drag_ok⟩
        · intro g1 hg1; rfl
        · intro _; rfl
        · exact fun i hix => hi.sel_mode i hix
        · intro hc; cases hc
        · intro g1 hg1; cases hg1; exact applyScale_mem _ _
        · intro g1 hg1 hv; cases hg1; exact hi.ghost_normal g rfl hv
    | adjusting =>
      cases se with
      | none => exact hi
      | some i =>
        simp only [step]
        exact inv_recordAction hi trivial
  | clickObject i =>
    cases mo with
    | previewing => exact hi
    | idle =>
      simp only [step]
      split
      · have hgn : gh = none := ghost_none_of_mode_ne hi (by intro hc; cases hc)
        subst hgn
        refine ⟨?_, ?_, ?_, ?_, hi.wf, ?_, ?_, hi.obj_scale, hi.undo_ok, hi.redo_ok, ?_⟩
        · intro g hg; cases hg
        · intro hc; cases hc
        · intro j hj; rfl
        · intro _; rfl
        · intro g hg; cases hg
        · intro g hg hv; cases hg
        · intro j snap hd; cases hd
      · exact hi
    | adjusting =>
      simp only [step]
      split
      · have hgn : gh = none := ghost_none_of_mode_ne hi (by intro hc; cases hc)
        subst hgn
        refine ⟨?_, ?_, ?_, ?_, hi.wf, ?_, ?_, hi.obj_scale, hi.undo_ok, hi.redo_ok, ?_⟩
        · intro g hg; cases hg
        · intro hc; cases hc
        · intro j hj; rfl
        · intro _; rfl
        · intro g hg; cases hg
        · intro g hg hv; cases hg
        · intro j snap hd; cases hd
      · exact hi
  | deselect =>
    cases mo with
    | idle => exact hi
    | previewing => exact hi
    | adjusting =>
      simp only [step]
      have hgn : gh = none := ghost_none_of_mode_ne hi (by intro hc; cases hc)
      subst hgn
      refine ⟨?_, ?_, ?_, ?_, hi.wf, ?_, ?_, hi.obj_scale, hi.undo_ok, hi.redo_ok, ?_⟩
      · intro g hg; cases hg
      · intro hc; cases hc
      · intro i hix; cases hix
      · intro hc; cases hc
      · intro g hg; cases hg
      · intro g hg hv; cases hg
      · intro i snap hd; cases hd
  | deleteCmd =>
    cases mo with
    | idle => exact hi
    | previewing => exact hi
    | adjusting =>
      cases se with
      | none => exact hi
      | some i =>
        simp only [step]
        have hgn : gh = none := ghost_none_of_mode_ne hi (by intro hc; cases hc)
        subst hgn
        have hrec : Inv (recordAction ⟨Mode.adjusting, none, some i, dr, st, hh⟩
            (.delete i)) := inv_recordAction hi trivial
        rw [recordAction_eq] at hrec ⊢
        refine ⟨?_, ?_, ?_, ?_, hrec.wf, ?_, ?_, hrec.obj_scale, hrec.undo_ok,
          hrec.redo_ok, ?_⟩
        · intro g hg; cases hg
        · intro hc; cases hc
        · intro j hj; cases hj
        · intro hc; cases hc
        · intro g hg; cases hg
        · intro g hg hv; cases hg
        · intro j snap hd; cases hd
  | undoCmd =>
    cases hus : hh.undoStack with
    | nil =>
      simp only [step, History.popUndo, hus]
      exact hi
    | cons e rest =>
      have he_ok : entryOK st.nextId e :=
        hi.undo_ok e (by rw [hus]; exact List.mem_cons_self _ _)
      have hwf' := storeWF_undoApply hi.wf he_ok.1
      have hos' := obj_scale_undoApply hi.obj_scale he_ok.2.1
      have hundo' : ∀ e1 ∈ rest, entryOK st.nextId e1 :=
        fun e1 h1 => hi.undo_ok e1 (by rw [hus]; exact List.mem_cons_of_mem _ h1)
      have hredo' : ∀ e1 ∈ e :: hh.redoStack, entryOK st.nextId e1 := by
        intro e1 h1
        rcases List.mem_cons.mp h1 with rfl | h1
        · exact he_ok
        · exact hi.redo_ok e1 h1
      cases mo with
      | idle =>
        have hsel : se = none := sel_none_of_mode_ne hi (by intro hc; cases hc)
        subst hsel
        have hgn : gh = none := ghost_none_of_mode_ne hi (by intro hc; cases hc)
        subst hgn
        simp only [step, History.popUndo, hus]
        refine ⟨?_, ?_, ?_, ?_, hwf', ?_, ?_, hos', hundo', hredo', ?_⟩
        · intro g hg; cases hg
        · intro hc; cases hc
        · intro i hix; cases hix
        · intro hc; cases hc
        · intro g hg; cases hg
        · intro g hg hv; cases hg
        · intro i snap hd
          exact hi.drag_ok i snap hd
      | previewing =>
        have hsel : se = none := sel_none_of_mode_ne hi (by intro hc; cases hc)
        subst hsel
        simp only [step, History.popUndo, hus]
        refine ⟨?_, ?_, ?_, ?_, hwf', ?_, ?_, hos', hundo', hredo', ?_⟩
        · intro g hg; rfl
        · intro _; exact hi.mode_ghost rfl
        · intro i hix; cases hix
        · intro hc; cases hc
        · exact fun g hg => hi.ghost_scale g hg
        · exact fun g hg hv => hi.ghost_normal g hg hv
        · intro i snap hd
          exact hi.drag_ok i snap hd
      | adjusting =>
        have hgn : gh = none := ghost_none_of_mode_ne hi (by intro hc; cases hc)
        subst hgn
        cases hsq : se with
        | none =>
          have := hi.mode_sel rfl
          rw [hsq] at this
          cases this
        | some i =>
          subst hsq
          simp only [step, History.popUndo, hus]
          split
          · refine ⟨?_, ?_, ?_, ?_, hwf', ?_, ?_, hos', hundo', hredo', ?_⟩
            · intro g hg; cases hg
            · intro hc; cases hc
            · intro j hj; rfl
            · intro _; rfl
            · intro g hg; cases hg
            · intro g hg hv; cases hg
            · intro j snap hd
              exact hi.drag_ok j snap hd
          · refine ⟨?_, ?_, ?_, ?_, hwf', ?_, ?_, hos', hundo', hredo', ?_⟩
            · intro g hg; cases hg
            · intro hc; cases hc
            · intro j hj; cases hj
            · intro hc; cases hc
            · intro g hg; cases hg
            · intro g hg hv; cases hg
            · intro j snap hd; cases hd
  | redoCmd =>
    cases hrs : hh.redoStack with
    | nil =>
      simp only [step, History.popRedo, hrs]
      exact hi
    | cons e rest =>
      have he_ok : entryOK st.nextId e :=
        hi.redo_ok e (by rw [hrs]; exact List.mem_cons_self _ _)
      have hwf' := storeWF_redoApply hi.wf he_ok.1
      have hos' := obj_scale_redoApply hi.obj_scale he_ok.2.2
      have hundo' : ∀ e1 ∈ e :: hh.undoStack, entryOK st.nextId e1 := by
        intro e1 h1
        rcases List.mem_cons.mp h1 with rfl | h1
        · exact he_ok
        · exact hi.undo_ok e1 h1
      have hredo' : ∀ e1 ∈ rest, entryOK st.nextId e1 :=
        fun e1 h1 => hi.redo_ok e1 (by rw [hrs]; exact List.mem_cons_of_mem _ h1)
      cases mo with
      | idle =>
        have hsel : se = none := sel_none_of_mode_ne hi (by intro hc; cases hc)
        subst hsel
        have hgn : gh = none := ghost_none_of_mode_ne hi (by intro hc; cases hc)
        subst hgn
        simp only [step, History.popRedo, hrs]
        refine ⟨?_, ?_, ?_, ?_, hwf', ?_, ?_, hos', hundo', hredo', ?_⟩
        · intro g hg; cases hg
        · intro hc; cases hc
        · intro i hix; cases hix
        · intro hc; cases hc
        · intro g hg; cases hg
        · intro g hg hv; cases hg
        · intro i snap hd
          exact hi.drag_ok i snap hd
      | previewing =>
        have hsel : se = none := sel_none_of_mode_ne hi (by intro hc; cases hc)
        subst hsel
        simp only [step, History.popRedo, hrs]
        refine ⟨?_, ?_, ?_, ?_, hwf', ?_, ?_, hos', hundo', hredo', ?_⟩
        · intro g hg; rfl
        · intro _; exact hi.mode_ghost rfl
        · intro i hix; cases hix
        · intro hc; cases hc
        · exact fun g hg => hi.ghost_scale g hg
        · exact fun g hg hv => hi.ghost_normal g hg hv
        · intro i snap hd
          exact hi.drag_ok i snap hd
      | adjusting =>
        have hgn : gh = none := ghost_none_of_mode_ne hi (by intro hc; cases hc)
        subst hgn
        cases hsq : se with
        | none =>
          have := hi.mode_sel rfl
          rw [hsq] at this
          cases this
        | some i =>
          subst hsq
          simp only [step, History.popRedo, hrs]
          split
          · refine ⟨?_, ?_, ?_, ?_, hwf', ?_, ?_, hos', hundo', hredo', ?_⟩
            · intro g hg; cases hg
            · intro hc; cases hc
            · intro j hj; rfl
            · intro _; rfl
            · intro g hg; cases hg
            · intro g hg hv; cases hg
            · intro j snap hd
              exact hi.drag_ok j snap hd
          · refine ⟨?_, ?_, ?_, ?_, hwf', ?_, ?_, hos', hundo', hredo', ?_⟩
            · intro g hg; cases hg
            · intro hc; cases hc
            · intro j hj; cases hj
            · intro hc; cases hc
            · intro g hg; cases hg
            · intro g hg hv; cases hg
            · intro j snap hd; cases hd
  | beginDrag =>
    cases mo with
    | idle => exact hi
    | previewing => exact hi
    | adjusting =>
      cases se with
      | none => exact hi
      | some i =>
        cases hfo : findObj i st.objects with
        | none =>
          simp only [step, hfo]
          exact hi
        | some o =>
          simp only [step, hfo]
          refine ⟨?_, ?_, ?_, ?_, hi.wf, ?_, ?_, hi.obj_scale, hi.undo_ok, hi.redo_ok, ?_⟩
          · exact fun g hg => hi.ghost_mode g hg
          · exact fun hc => hi.mode_ghost hc
          · exact fun j hj => hi.sel_mode j hj
          · exact fun hc => hi.mode_sel hc
          · exact fun g hg => hi.ghost_scale g hg
          · exact fun g hg hv => hi.ghost_normal g hg hv
          · intro j snap hd
            cases hd
            constructor
            · exact (findObj_mem hfo).2 ▸ hi.wf.2 o (findObj_mem hfo).1
            · exact hi.obj_scale o (findObj_mem hfo).1
  | updateDrag hit =>
    cases dr with
    | none => cases hit <;> exact hi
    | some pr =>
      obtain ⟨i, orig⟩ := pr
      cases hit with
      | none => exact hi
      | some h =>
        cases hfo : findObj i st.objects with
        | none =>
          simp only [step, hfo]
          exact hi
        | some o =>
          simp only [step, hfo]
          have hoid : o.id < st.nextId := hi.wf.2 o (findObj_mem hfo).1
          refine ⟨?_, ?_, ?_, ?_, ?_, ?_, ?_, ?_, hi.undo_ok, hi.redo_ok, ?_⟩
          · exact fun g hg => hi.ghost_mode g hg
          · exact fun hc => hi.mode_ghost hc
          · exact fun j hj => hi.sel_mode j hj
          · exact fun hc => hi.mode_sel hc
          · exact ⟨pairwise_insertObj hi.wf.1, insertObj_id_lt hi.wf.2 hoid⟩
          · exact fun g hg => hi.ghost_scale g hg
          · exact fun g hg hv => hi.ghost_normal g hg hv
          · intro x hx
            rcases mem_insertObj hx with rfl | hx
            · exact hi.obj_scale o (findObj_mem hfo).1
            · exact hi.obj_scale x hx
          · exact fun j snap hd => hi.drag_ok j snap hd
  | endDrag =>
    cases dr with
    | none => exact hi
    | some pr =>
      obtain ⟨i, orig⟩ := pr
      have hdrag := hi.drag_ok i orig rfl
      cases hfo : findObj i st.objects with
      | none =>
        simp only [step, hfo]
        refine ⟨?_, ?_, ?_, ?_, hi.wf, ?_, ?_, hi.obj_scale, hi.undo_ok, hi.redo_ok, ?_⟩
        · exact fun g hg => hi.ghost_mode g hg
        · exact fun hc => hi.mode_ghost hc
        · exact fun j hj => hi.sel_mode j hj
        · exact fun hc => hi.mode_sel hc
        · exact fun g hg => hi.ghost_scale g hg
        · exact fun g hg hv => hi.ghost_normal g hg hv
        · intro j snap hd; cases hd
      | some o =>
        simp only [step, hfo]
        split
        · refine ⟨?_, ?_, ?_, ?_, hi.wf, ?_, ?_, hi.obj_scale, ?_, ?_, ?_⟩
          · exact fun g hg => hi.ghost_mode g hg
          · exact fun hc => hi.mode_ghost hc
          · exact fun j hj => hi.sel_mode j hj
          · exact fun hc => hi.mode_sel hc
          · exact fun g hg => hi.ghost_scale g hg
          · exact fun g hg hv => hi.ghost_normal g hg hv
          · intro e1 h1
            rcases mem_push h1 with rfl | h1
            · unfold entryOK
              refine ⟨hdrag.1, ?_, ?_⟩
              · intro s1 hb1
                cases hb1
                exact hdrag.2
              · intro s1 hb1
                cases hb1
                exact hi.obj_scale o (findObj_mem hfo).1
            · exact hi.undo_ok e1 h1
          · intro e1 h1
            rw [push_redoStack] at h1
            cases h1
          · intro j snap hd; cases hd
        · refine ⟨?_, ?_, ?_, ?_, hi.wf, ?_, ?_, hi.obj_scale, hi.undo_ok, hi.redo_ok, ?_⟩
          · exact fun g hg => hi.ghost_mode g hg
          · exact fun hc => hi.mode_ghost hc
          · exact fun j hj => hi.sel_mode j hj
          · exact fun hc => hi.mode_sel hc
          · exact fun g hg => hi.ghost_scale g hg
          · exact fun g hg hv => hi.ghost_normal g hg hv
          · intro j snap hd; cases hd

lemma inv_foldl (evs : List Event) :
    ∀ s : EngineState, Inv s → Inv (evs.foldl step s) := by
  induction evs with
  | nil => exact fun s hs => hs
  | cons e rest ih => exact fun s hs => ih (step s e) (inv_step hs e)

/-- The invariant holds in every state reachable from the initial one. -/
lemma inv_run (evs : List Event) : Inv (run evs) :=
  inv_foldl evs EngineState.init inv_init

lemma inv_of_reachable {s : EngineState} (h : Reachable s) : Inv s := by
  obtain ⟨evs, rfl⟩ := h
  exact inv_run evs

/-! ## Persistence layer

Embedding of packages/skeleton SceneSerializer (src/packages/skeleton/
src/index.ts, second module) and SceneDeserializer (src/unnamed/
part_004).  The TypeScript serialized types mirror the domain types, and
the JSON text between JSON.stringify and JSON.parse is modelled by the
serialized record itself (stringify then parse is the identity on
finite, acyclic values).  The JavaScript coercions Number(n) on a number
and String(s) on a string are identities and are embedded as such. -/

/-- Euler rotation of the skeleton core types: x, y, z angles with an
optional order string. -/
structure Euler where
  x : ℚ
  y : ℚ
  z : ℚ
  order : Option String
deriving DecidableEq, Repr

/-- Treat metadata: optional text, behaviorCode and objectId. -/
structure TreatMetadata where
  text : Option String
  behaviorCode : Option String
  objectId : Option String
deriving DecidableEq, Repr

/-- A treat of the skeleton core types: id, type, glbUrl, position,
Euler rotation, Vector3 scale and metadata.  The TreatType union is
modelled as a string together with the VALID_TREAT_TYPES list below. -/
structure Treat where
  id : String
  type : String
  glbUrl : String
  position : Vec3
  rotation : Euler
  scale : Vec3
  metadata : TreatMetadata
deriving DecidableEq, Repr

/-- A waypoint trigger action: type (audio, text or activate in the
TypeScript union, modelled as a string) and payload. -/
structure WaypointAction where
  type : String
  payload : String
deriving DecidableEq, Repr

/-- A navigation waypoint. -/
structure Waypoint where
  id : String
  position : Vec3
  pathId : Option String
  order : Option ℚ
  triggerAction : Option WaypointAction
deriving DecidableEq, Repr

/-- A path connecting waypoints. -/
structure WaypointPath where
  id : String
  name : String
  waypointIds : List String
deriving DecidableEq, Repr

/-- The complete scene state of the skeleton core types. -/
structure SceneState where
  version : ℚ
  worldUrl : String
  treats : List Treat
  waypoints : List Waypoint
  paths : List WaypointPath
  createdAt : String
  updatedAt : String
deriving DecidableEq, Repr

/-- The serialized scene record.  worldUrl is optional here because the
deserializer validates its presence (a parsed JSON object may lack it). -/
structure SerializedSceneState where
  version : ℚ
  worldUrl : Option String
  treats : List Treat
  waypoints : List Waypoint
  paths : List WaypointPath
  createdAt : String
  updatedAt : String
deriving DecidableEq, Repr

/-- serializeVector3: copies x, y, z. -/
def serializeVector3 (v : Vec3) : Vec3 :=
  ⟨v.x, v.y, v.z⟩

/-- serializeEuler: copies x, y, z and includes order only if defined. -/
def serializeEuler (e : Euler) : Euler :=
  { x := e.x, y := e.y, z := e.z
    order := match e.order with
      | some o => some o
      | none => none }

/-- serializeTreat of the skeleton package: copies every field and
spreads the metadata. -/
def serializeTreat (t : Treat) : Treat :=
  { id := t.id
    type := t.type
    glbUrl := t.glbUrl
    position := serializeVector3 t.position
    rotation := serializeEuler t.rotation
    scale := serializeVector3 t.scale
    metadata :=
      { text := t.metadata.text
        behaviorCode := t.metadata.behaviorCode
        objectId := t.metadata.objectId } }

/-- serializeWaypoint: copies id and position, keeping each optional
field only if defined. -/
def serializeWaypoint (w : Waypoint) : Waypoint :=
  { id := w.id
    position := serializeVector3 w.position
    pathId := match w.pathId with
      | some q => some q
      | none => none
    order := match w.order with
      | some q => some q
      | none => none
    triggerAction := match w.triggerAction with
      | some a => some ⟨a.type, a.payload⟩
      | none => none }

/-- serializeWaypointPath: copies id, name and the waypoint id list. -/
def serializeWaypointPath (p : WaypointPath) : WaypointPath :=
  { id := p.id, name := p.name, waypointIds := p.waypointIds }

/-- toObject: serialize a SceneState to a plain record. -/
def toObject (s : SceneState) : SerializedSceneState :=
  { version := s.version
    worldUrl := some s.worldUrl
    treats := s.treats.map serializeTreat
    waypoints := s.waypoints.map serializeWaypoint
    paths := s.paths.map serializeWaypointPath
    createdAt := s.createdAt
    updatedAt := s.updatedAt }

/-- toJSON: JSON.stringify of the serialized record; the JSON text is
modelled by the record itself. -/
def toJSON (s : SceneState) : SerializedSceneState :=
  toObject s

/-- VALID_TREAT_TYPES of the deserializer (src/unnamed/part_004). -/
def VALID_TREAT_TYPES : List String :=
  ["custom", "library", "waypoint", "ai-generated", "message-bottle"]

/-- VALID_ACTION_TYPES of the deserializer. -/
def VALID_ACTION_TYPES : List String := ["audio", "text", "activate"]

/-- deserializeVector3: Number() on each component. -/
def deserializeVector3 (v : Vec3) : Vec3 :=
  ⟨v.x, v.y, v.z⟩

/-- deserializeEuler: Number() on components, String() on order when
defined. -/
def deserializeEuler (e : Euler) : Euler :=
  { x := e.x, y := e.y, z := e.z
    order := match e.order with
      | some o => some o
      | none => none }

/-- deserializeTreatType: unknown types default to custom. -/
def deserializeTreatType (t : String) : String :=
  if t ∈ VALID_TREAT_TYPES then t else "custom"

/-- deserializeTreatMetadata: keeps each field if defined. -/
def deserializeTreatMetadata (m : TreatMetadata) : TreatMetadata :=
  { text := m.text, behaviorCode := m.behaviorCode, objectId := m.objectId }

/-- deserializeTreat. -/
def deserializeTreat (t : Treat) : Treat :=
  { id := t.id
    type := deserializeTreatType t.type
    glbUrl := t.glbUrl
    position := deserializeVector3 t.position
    rotation := deserializeEuler t.rotation
    scale := deserializeVector3 t.scale
    metadata := deserializeTreatMetadata t.metadata }

/-- deserializeWaypointAction: invalid action types default to text. -/
def deserializeWaypointAction (a : WaypointAction) : WaypointAction :=
  { type := if a.type ∈ VALID_ACTION_TYPES then a.type else "text"
    payload := a.payload }

/-- deserializeWaypoint. -/
def deserializeWaypoint (w : Waypoint) : Waypoint :=
  { id := w.id
    position := deserializeVector3 w.position
    pathId := w.pathId
    order := w.order
    triggerAction := match w.triggerAction with
      | some a => some (deserializeWaypointAction a)
      | none => none }

/-- deserializeWaypointPath. -/
def deserializeWaypointPath (p : WaypointPath) : WaypointPath :=
  { id := p.id, name := p.name, waypointIds := p.waypointIds }

/-- fromObject: validates worldUrl, applies Number(version) with the
JavaScript || 1 fallback (0 is falsy), deserializes the collections and
falls back to the current time for falsy (empty) timestamps.  The
impure new Date().toISOString() is passed in explicitly as now. -/
def fromObject (d : SerializedSceneState) (now : String) : Except String SceneState :=
  match d.worldUrl with
  | none => Except.error "SceneState missing required field: worldUrl"
  | some u =>
    Except.ok
      { version := if d.version = 0 then 1 else d.version
        worldUrl := u
        treats := d.treats.map deserializeTreat
        waypoints := d.waypoints.map deserializeWaypoint
        paths := d.paths.map deserializeWaypointPath
        createdAt := if d.createdAt = "" then now else d.createdAt
        updatedAt := if d.updatedAt = "" then now else d.updatedAt }

/-- fromJSON: JSON.parse then fromObject; the parsed value is the
record itself. -/
def fromJSON (d : SerializedSceneState) (now : String) : Except String SceneState :=
  fromObject d now

/-- Well-formedness under which the serialization round trip is the
identity: nonzero version, non-empty timestamps (the JavaScript || and
ternary fallbacks fire on falsy values), recognized treat types, and
recognized waypoint action types. -/
def wellFormedScene (s : SceneState) : Prop :=
  s.version ≠ 0 ∧ s.createdAt ≠ "" ∧ s.updatedAt ≠ "" ∧
  (∀ t ∈ s.treats, t.type ∈ VALID_TREAT_TYPES) ∧
  (∀ w ∈ s.waypoints, ∀ a, w.triggerAction = some a → a.type ∈ VALID_ACTION_TYPES)

/-! ## The JSON shape of serialized treat records

To settle the claim about the shape of the serialized records, the
serializers are also embedded at the level of JSON values, following the
object literals of the sources key for key. -/

/-- A JSON value. -/
inductive JVal where
  | num (q : ℚ)
  | str (s : String)
  | obj (fields : List (String × JVal))
deriving Repr

/-- The keys of a JSON object value. -/
def jsonKeys : JVal → List String
  | .obj fs => fs.map Prod.fst
  | _ => []

/-- JSON form of a Vector3. -/
def jsonOfVec3 (v : Vec3) : JVal :=
  .obj [("x", .num v.x), ("y", .num v.y), ("z", .num v.z)]

/-- JSON form of an Euler, with order only when defined. -/
def jsonOfEuler (e : Euler) : JVal :=
  .obj ([("x", .num e.x), ("y", .num e.y), ("z", .num e.z)] ++
    (match e.order with
      | some o => [("order", .str o)]
      | none => []))

/-- JSON form of treat metadata (the spread of the metadata object). -/
def jsonOfMetadata (m : TreatMetadata) : JVal :=
  .obj ((match m.text with
      | some t => [("text", .str t)]
      | none => []) ++
    (match m.behaviorCode with
      | some b => [("behaviorCode", .str b)]
      | none => []) ++
    (match m.objectId with
      | some o => [("objectId", .str o)]
      | none => []))

/-- The JSON record produced by the skeleton serializeTreat: exactly the
keys id, type, glbUrl, position, rotation, scale, metadata. -/
def serializeTreatJson (t : Treat) : JVal :=
  .obj [("id", .str t.id), ("type", .str t.type), ("glbUrl", .str t.glbUrl),
    ("position", jsonOfVec3 t.position), ("rotation", jsonOfEuler t.rotation),
    ("scale", jsonOfVec3 t.scale), ("metadata", jsonOfMetadata t.metadata)]

/-- A treat of the core package (src/packages/core/src/types.ts):
rotation is a plain Vector3 of Euler angles and there is no scale. -/
structure CoreTreat where
  id : String
  type : String
  glbUrl : String
  message : Option String
  position : Vec3
  rotation : Vec3
  createdAt : Option String
  updatedAt : Option String
deriving DecidableEq, Repr

/-- The JSON record produced by the core serializeTreat
(src/packages/core/src/persistence/SceneSerializer.ts, lines 75 to 96):
id, type, glbUrl, position, rotation, then message, createdAt and
updatedAt only when defined. -/
def serializeCoreTreatJson (t : CoreTreat) : JVal :=
  .obj ([("id", .str t.id), ("type", .str t.type), ("glbUrl", .str t.glbUrl),
    ("position", jsonOfVec3 t.position), ("rotation", jsonOfVec3 t.rotation)] ++
    (match t.message with
      | some m => [("message", .str m)]
      | none => []) ++
    (match t.createdAt with
      | some c => [("createdAt", .str c)]
      | none => []) ++
    (match t.updatedAt with
      | some u => [("updatedAt", .str u)]
      | none => []))

/-- The record shape named by the spec (section 6): a plain record of
position, yaw, surfaceNormal and scale.  This definition follows the
words of the spec, for comparison with the source serializers. -/
def specTransformRecordKeys : List String :=
  ["position", "yaw", "surfaceNormal", "scale"]

/-! ## SceneManager.loadWorld (src/unnamed/part_003) -/

/-- Error classification of a world load failure. -/
inductive SceneLoadError where
  | network (message url : String)
  | parseFailed (message url : String)
  | timeout (message url : String)
  | unknown (message : String)
deriving DecidableEq, Repr

/-- Result of a world load. -/
inductive LoadWorldResult where
  | ok
  | fail (e : SceneLoadError)
deriving DecidableEq, Repr

/-- Whether the pattern is a prefix of the character list. -/
def charsStartWith : List Char → List Char → Bool
  | [], _ => true
  | _ :: _, [] => false
  | a :: as, b :: bs => a = b && charsStartWith as bs

/-- Whether the pattern occurs inside the character list. -/
def charsContain (pat : List Char) : List Char → Bool
  | [] => charsStartWith pat []
  | b :: bs => charsStartWith pat (b :: bs) || charsContain pat bs

/-- JavaScript String.prototype.includes. -/
def strContains (s pat : String) : Bool :=
  charsContain pat.toList s.toList

/-- The error classification of loadWorld: timeout, then network (with
the fetch, 404 and Failed-to-fetch spellings), then parse, else
unknown, matching the includes chain in the catch block. -/
def classifyLoadError (msg url : String) : SceneLoadError :=
  if strContains msg "timeout" then .timeout msg url
  else if strContains msg "network" || strContains msg "fetch" ||
      strContains msg "404" || strContains msg "Failed to fetch" then .network msg url
  else if strContains msg "parse" || strContains msg "invalid" then .parseFailed msg url
  else .unknown msg

/-- The SceneManager state visible to loadWorld: the initialization flag
and the currently loaded world url. -/
structure SceneMgrState where
  initialized : Bool
  currentWorldUrl : Option String
deriving DecidableEq, Repr

/-- The outcome of the external SparkJS SplatLoader for a given url:
either the load-and-parse resolved, or it rejected with an error
message (network failure, parse failure, or the timeout raced in). -/
inductive SpzLoadOutcome where
  | resolved
  | rejected (msg : String)
deriving DecidableEq, Repr

/-- loadWorld: initializes if needed, treats an empty url as the empty
world, then races the loader against the timeout.  On resolution the
current world url is set and success returned; on rejection the error
message is classified, onError is invoked once with the message, the
failure result is returned and the current world url is left unchanged.
The third component lists the onError invocations. -/
def loadWorld (st : SceneMgrState) (spzUrl : String) (outcome : SpzLoadOutcome) :
    LoadWorldResult × SceneMgrState × List String :=
  let st1 : SceneMgrState := { st with initialized := true }
  if spzUrl = "" then (.ok, { st1 with currentWorldUrl := none }, [])
  else
    match outcome with
    | .resolved => (.ok, { st1 with currentWorldUrl := some spzUrl }, [])
    | .rejected msg => (.fail (classifyLoadError msg spzUrl), st1, [msg])

/-! ## Small helper lemmas for the claim theorems -/

lemma iterate_applyRotation (c : ℝ) (n : Nat) (x : ℝ) :
    (fun y : ℝ => applyRotation y c)^[n] x = x + n * c := by
  induction n with
  | zero => simp
  | succ k ih =>
    rw [Function.iterate_succ_apply', ih]
    unfold applyRotation
    push_cast
    ring

lemma listMapId {α : Type} {l : List α} {f : α → α} (h : ∀ a ∈ l, f a = a) :
    l.map f = l := by
  induction l with
  | nil => rfl
  | cons x xs ih =>
    rw [List.map_cons, h x (List.mem_cons_self _ _),
      ih (fun a ha => h a (List.mem_cons_of_mem _ ha))]

lemma push_head (h : History) (e : HistoryEntry) :
    (h.push e).undoStack.head? = some e := by
  cases hu : h.undoStack with
  | nil => simp [History.push, HISTORY_CAP, hu]
  | cons x xs =>
    simp only [History.push, hu]
    split
    · rw [List.dropLast_eq_take]
      simp [List.take_succ_cons]
    · rfl

/-! ## Claim theorems -/

/-- Claim C7: every discrete rotate command changes yaw by exactly plus
or minus pi/12 radians (applyRotation returns yaw + deltaRadians), and
24 consecutive same-direction rotations return the yaw to its original
value modulo 2 pi (indeed they add exactly plus or minus 2 pi). -/
theorem c7_rotation_increment (yaw : ℝ) :
    (∀ d : ℝ, applyRotation yaw d = yaw + d) ∧
    applyRotation yaw (Real.pi / 12) = yaw + Real.pi / 12 ∧
    applyRotation yaw (-(Real.pi / 12)) = yaw - Real.pi / 12 ∧
    (fun y : ℝ => applyRotation y (Real.pi / 12))^[24] yaw = yaw + 2 * Real.pi ∧
    (fun y : ℝ => applyRotation y (-(Real.pi / 12)))^[24] yaw = yaw - 2 * Real.pi ∧
    (∃ k : ℤ, (fun y : ℝ => applyRotation y (Real.pi / 12))^[24] yaw - yaw
      = k * (2 * Real.pi)) ∧
    (∃ k : ℤ, (fun y : ℝ => applyRotation y (-(Real.pi / 12)))^[24] yaw - yaw
      = k * (2 * Real.pi)) := by
  have hpos := iterate_applyRotation (Real.pi / 12) 24 yaw
  have hneg := iterate_applyRotation (-(Real.pi / 12)) 24 yaw
  have hp : (24 : ℕ) * (Real.pi / 12) = 2 * Real.pi := by
    push_cast
    ring
  have hn : (24 : ℕ) * (-(Real.pi / 12)) = -(2 * Real.pi) := by
    push_cast
    ring
  refine ⟨fun d => rfl, rfl, by unfold applyRotation; ring, ?_, ?_, ?_, ?_⟩
  · rw [hpos, hp]
  · rw [hneg, hn]; ring
  · exact ⟨1, by rw [hpos, hp]; push_cast; ring⟩
  · exact ⟨-1, by rw [hneg, hn]; push_cast; ring⟩

/-- Claim C5: feeding any sequence of hit results to updateFromHit, a
final non-null hit leaves the ghost at the hit position and normal with
valid true; a final null hit clears valid while leaving position and
normal at their previous values. -/
theorem c5_ghost_tracks_hits (g : GhostState) (hs : List (Option HitResult))
    (h : HitResult) :
    ((hs ++ [some h]).foldl updateFromHit g).position = h.position ∧
    ((hs ++ [some h]).foldl updateFromHit g).surfaceNormal = some h.normal ∧
    ((hs ++ [some h]).foldl updateFromHit g).valid = true ∧
    ((hs ++ [none]).foldl updateFromHit g).valid = false ∧
    ((hs ++ [none]).foldl updateFromHit g).position
      = (hs.foldl updateFromHit g).position ∧
    ((hs ++ [none]).foldl updateFromHit g).surfaceNormal
      = (hs.foldl updateFromHit g).surfaceNormal := by
  rw [List.foldl_append, List.foldl_append]
  simp [updateFromHit]

/-- Claim C2: in every reachable engine state the ghost scale and every
placed object scale lie in [0.1, 5.0]; applyScale always lands in the
interval and silently clamps; scaling up from the upper bound or down
from the lower bound is a no-op on the bound; and the scale change is
uniform across the three axes. -/
theorem c2_scale_clamp :
    (∀ evs : List Event,
      (∀ g, (run evs).ghost = some g → MIN_SCALE ≤ g.scale ∧ g.scale ≤ MAX_SCALE) ∧
      (∀ o ∈ (run evs).store.objects, MIN_SCALE ≤ o.scale ∧ o.scale ≤ MAX_SCALE)) ∧
    (∀ s d : ℚ, MIN_SCALE ≤ applyScale s d ∧ applyScale s d ≤ MAX_SCALE) ∧
    (∀ d : ℚ, applyScale MAX_SCALE |d| = MAX_SCALE) ∧
    (∀ d : ℚ, applyScale MIN_SCALE (-|d|) = MIN_SCALE) ∧
    (∀ (v : Vec3) (d : ℚ),
      (applyScaleVec3 v d).x = (applyScaleVec3 v d).y ∧
      (applyScaleVec3 v d).y = (applyScaleVec3 v d).z ∧
      (applyScaleVec3 v d).x = applyScale v.x d) := by
  refine ⟨?_, ?_, ?_, ?_, ?_⟩
  · intro evs
    have hi := inv_run evs
    exact ⟨fun g hg => hi.ghost_scale g hg, fun o ho => hi.obj_scale o ho⟩
  · exact fun s d => applyScale_mem s d
  · intro d
    have h1 : (1 : ℚ) ≤ 1 + |d| := by
      have := abs_nonneg d
      linarith
    have h2 : MAX_SCALE ≤ MAX_SCALE * (1 + |d|) :=
      le_mul_of_one_le_right (by unfold MAX_SCALE; norm_num) h1
    unfold applyScale
    rw [min_eq_left h2, max_eq_right]
    unfold MIN_SCALE MAX_SCALE
    norm_num
  · intro d
    have h1 : 1 + -|d| ≤ 1 := by
      have := abs_nonneg d
      linarith
    have h2 : MIN_SCALE * (1 + -|d|) ≤ MIN_SCALE :=
      mul_le_of_le_one_right (by unfold MIN_SCALE; norm_num) h1
    have h3 : MIN_SCALE * (1 + -|d|) ≤ MAX_SCALE :=
      le_trans h2 (by unfold MIN_SCALE MAX_SCALE; norm_num)
    unfold applyScale
    rw [min_eq_right h3, max_eq_left h2]
  · exact fun v d => ⟨rfl, rfl, rfl⟩

/-- Claim C2 witness: six 10 percent shrinks from scale 1 stay inside
the interval, and the bounds absorb further scaling. -/
theorem c2_scale_clamp_witness :
    (∀ g, (run [Event.selectModel "m",
        Event.scaleCmd (-(1 / 10)), Event.scaleCmd (-(1 / 10)),
        Event.scaleCmd (-(1 / 10)), Event.scaleCmd (-(1 / 10)),
        Event.scaleCmd (-(1 / 10)), Event.scaleCmd (-(1 / 10))]).ghost = some g →
      MIN_SCALE ≤ g.scale ∧ g.scale ≤ MAX_SCALE) ∧
    applyScale MAX_SCALE |(1 : ℚ) / 10| = MAX_SCALE ∧
    applyScale MIN_SCALE (-|(1 : ℚ) / 10|) = MIN_SCALE :=
  ⟨((c2_scale_clamp.1 _).1),
    c2_scale_clamp.2.2.1 (1 / 10), c2_scale_clamp.2.2.2.1 (1 / 10)⟩

/-- The ghost/selection mutual exclusion demanded by the mode: idle has
neither, previewing has a ghost and no selection, adjusting has a
selection and no ghost. -/
def mutualExclusion (s : EngineState) : Bool :=
  match s.mode with
  | Mode.idle => s.ghost.isNone && s.selection.isNone
  | Mode.previewing => s.ghost.isSome && s.selection.isNone
  | Mode.adjusting => s.selection.isSome && s.ghost.isNone

/-- Claim C6: in every state reachable by any event sequence from the
initial idle state, ghost preview and selection never exist
simultaneously: idle has neither, previewing has a ghost and no
selection, adjusting has a selection and no ghost. -/
theorem c6_mutual_exclusion (evs : List Event) :
    mutualExclusion (run evs) = true := by
  have hi := inv_run evs
  unfold mutualExclusion
  cases hm : (run evs).mode with
  | idle =>
    have hg : (run evs).ghost = none :=
      ghost_none_of_mode_ne hi (by rw [hm]; intro hc; cases hc)
    have hs : (run evs).selection = none :=
      sel_none_of_mode_ne hi (by rw [hm]; intro hc; cases hc)
    rw [hg, hs]
    rfl
  | previewing =>
    have hg := hi.mode_ghost hm
    have hs : (run evs).selection = none :=
      sel_none_of_mode_ne hi (by rw [hm]; intro hc; cases hc)
    rw [hs]
    simp [hg]
  | adjusting =>
    have hg : (run evs).ghost = none :=
      ghost_none_of_mode_ne hi (by rw [hm]; intro hc; cases hc)
    have hs := hi.mode_sel hm
    rw [hg]
    simp [hs]

/-- Claim C4: a push puts the new entry on top, truncates to the 20 most
recent and clears the redo stack; any push sequence leaves exactly the
20 most recent entries (newest first); after more than 20 pushes only
the 20 most recent remain; and with distinct entries the 21st-from-last
push is no longer on the undo stack. -/
theorem c4_push_eviction :
    (∀ (h : History) (e : HistoryEntry), h.undoStack.length ≤ HISTORY_CAP →
      (h.push e).undoStack = (e :: h.undoStack).take HISTORY_CAP ∧
      (h.push e).undoStack.head? = some e ∧
      (h.push e).redoStack = []) ∧
    (∀ (es : List HistoryEntry) (h : History), h.undoStack.length ≤ HISTORY_CAP →
      (h.pushAll es).undoStack = (es.reverse ++ h.undoStack).take HISTORY_CAP) ∧
    (∀ (es : List HistoryEntry) (h : History), h.undoStack.length ≤ HISTORY_CAP →
      es.length > HISTORY_CAP → (h.pushAll es).undoStack = es.reverse.take HISTORY_CAP) ∧
    (∀ (es : List HistoryEntry) (h : History) (e0 : HistoryEntry),
      h.undoStack.length ≤ HISTORY_CAP → es.Nodup →
      es.length = HISTORY_CAP + 1 → es.head? = some e0 →
      e0 ∉ (h.pushAll es).undoStack) := by
  have hall : ∀ (es : List HistoryEntry) (h : History),
      h.undoStack.length ≤ HISTORY_CAP →
      (h.pushAll es).undoStack = (es.reverse ++ h.undoStack).take HISTORY_CAP :=
    fun es h hl => (pushAll_char es h hl).1
  have hgt : ∀ (es : List HistoryEntry) (h : History),
      h.undoStack.length ≤ HISTORY_CAP → es.length > HISTORY_CAP →
      (h.pushAll es).undoStack = es.reverse.take HISTORY_CAP := by
    intro es h hl hlen
    rw [hall es h hl, List.take_append_eq_append_take,
      Nat.sub_eq_zero_of_le (by rw [List.length_reverse]; omega),
      List.take_zero, List.append_nil]
  refine ⟨?_, hall, hgt, ?_⟩
  · exact fun h e hl => ⟨push_undoStack e hl, push_head h e, push_redoStack h e⟩
  · intro es h e0 hl hnd hlen hhd
    cases es with
    | nil => cases hhd
    | cons e1 tail =>
      have he1 : e1 = e0 := by
        simp only [List.head?_cons, Option.some.injEq] at hhd
        exact hhd
      subst he1
      have htl : tail.length = HISTORY_CAP := by
        simp only [List.length_cons] at hlen
        omega
      have hrw : (h.pushAll (e1 :: tail)).undoStack = tail.reverse := by
        rw [hgt (e1 :: tail) h hl (by simp [hlen]),
          List.reverse_cons, ← htl, ← List.length_reverse tail, List.take_left]
      rw [hrw]
      intro hmem
      have : e1 ∈ tail := List.mem_reverse.mp hmem
      exact (List.nodup_cons.mp hnd).1 this

/-- Claim C4 witness: pushing 21 distinct entries onto an empty history
evicts exactly the first push. -/
theorem c4_push_eviction_witness :
    History.empty.undoStack.length ≤ HISTORY_CAP ∧
    ((List.range (HISTORY_CAP + 1)).map
      (fun k => HistoryEntry.mk ActionKind.place k none none)).Nodup ∧
    ((List.range (HISTORY_CAP + 1)).map
      (fun k => HistoryEntry.mk ActionKind.place k none none)).length = HISTORY_CAP + 1 ∧
    HistoryEntry.mk ActionKind.place 0 none none ∉
      (History.empty.pushAll ((List.range (HISTORY_CAP + 1)).map
        (fun k => HistoryEntry.mk ActionKind.place k none none))).undoStack :=
  ⟨by decide, by decide, by decide,
    c4_push_eviction.2.2.2 _ History.empty _ (by decide) (by decide) (by decide) (by decide)⟩

/-- Claim C1: in previewing with a valid ghost, confirm creates exactly
one new PlacedObject carrying the ghost position, yaw, surface normal
and scale (all other objects untouched), pushes a place history entry,
selects the new object and moves to adjusting; with an invalid ghost,
confirm changes nothing and the engine stays in previewing. -/
theorem c1_confirm_commit (s : EngineState) (g : GhostState)
    (hr : Reachable s) (hm : s.mode = Mode.previewing) (hg : s.ghost = some g) :
    (g.valid = true →
      ∃ n : Vec3, g.surfaceNormal = some n ∧
        (step s Event.confirm).store.objects
          = s.store.objects ++
            [⟨s.store.nextId, g.modelRef, g.position, g.yaw, n, g.scale⟩] ∧
        (step s Event.confirm).store.nextId = s.store.nextId + 1 ∧
        (step s Event.confirm).history.undoStack.head?
          = some ⟨ActionKind.place, s.store.nextId, none,
              some ⟨g.modelRef, g.position, g.yaw, n, g.scale⟩⟩ ∧
        (step s Event.confirm).history.redoStack = [] ∧
        (step s Event.confirm).selection = some s.store.nextId ∧
        (step s Event.confirm).ghost = none ∧
        (step s Event.confirm).mode = Mode.adjusting) ∧
    (g.valid = false → step s Event.confirm = s) := by
  have hi := inv_of_reachable hr
  obtain ⟨mo, gh, se, dr, st, hh⟩ := s
  simp only at hm hg
  subst hm
  subst hg
  constructor
  · intro hv
    obtain ⟨n, hn⟩ := Option.isSome_iff_exists.mp (hi.ghost_normal g rfl hv)
    have hsnap : snapshotForCommit g = some (g.position, g.yaw, n, g.scale) := by
      unfold snapshotForCommit
      rw [hv, hn]
      rfl
    have hcompute : step ⟨Mode.previewing, some g, se, dr, st, hh⟩ Event.confirm
        = { mode := Mode.adjusting, ghost := none, selection := some st.nextId,
            dragging := dr,
            store := ⟨insertObj
              (objOfSnap st.nextId ⟨g.modelRef, g.position, g.yaw, n, g.scale⟩)
              st.objects, st.nextId + 1⟩,
            history := hh.push ⟨ActionKind.place, st.nextId, none,
              some ⟨g.modelRef, g.position, g.yaw, n, g.scale⟩⟩ } := by
      simp only [step, hsnap, recordAction, performAction]
    refine ⟨n, hn, ?_, ?_, ?_, ?_, ?_, ?_, ?_⟩
    · rw [hcompute]
      exact insertObj_eq_append (fun x hx => hi.wf.2 x hx)
    · rw [hcompute]
    · rw [hcompute]
      exact push_head _ _
    · rw [hcompute]
      exact push_redoStack _ _
    · rw [hcompute]
    · rw [hcompute]
    · rw [hcompute]
  · intro hv
    have hsnap : snapshotForCommit g = none := by
      unfold snapshotForCommit
      rw [hv]
      rfl
    simp only [step, hsnap]

/-- Claim C1 witness: after arming a model and one valid raycast hit,
confirm commits the ghost transform verbatim. -/
theorem c1_confirm_commit_witness :
    Reachable (run [Event.selectModel "bottle.glb",
      Event.pointerMove (some ⟨⟨1, 0, 2⟩, ⟨0, 1, 0⟩, 5⟩)]) ∧
    (run [Event.selectModel "bottle.glb",
      Event.pointerMove (some ⟨⟨1, 0, 2⟩, ⟨0, 1, 0⟩, 5⟩)]).mode = Mode.previewing ∧
    (run [Event.selectModel "bottle.glb",
      Event.pointerMove (some ⟨⟨1, 0, 2⟩, ⟨0, 1, 0⟩, 5⟩)]).ghost
      = some ⟨"bottle.glb", ⟨1, 0, 2⟩, 0, some ⟨0, 1, 0⟩, 1, true⟩ ∧
    (⟨"bottle.glb", ⟨1, 0, 2⟩, 0, some ⟨0, 1, 0⟩, 1, true⟩ : GhostState).valid = true ∧
    (∃ n : Vec3,
      (⟨"bottle.glb", ⟨1, 0, 2⟩, 0, some ⟨0, 1, 0⟩, 1, true⟩ : GhostState).surfaceNormal
        = some n ∧
      (step (run [Event.selectModel "bottle.glb",
          Event.pointerMove (some ⟨⟨1, 0, 2⟩, ⟨0, 1, 0⟩, 5⟩)]) Event.confirm).store.objects
        = (run [Event.selectModel "bottle.glb",
            Event.pointerMove (some ⟨⟨1, 0, 2⟩, ⟨0, 1, 0⟩, 5⟩)]).store.objects ++
          [⟨(run [Event.selectModel "bottle.glb",
              Event.pointerMove (some ⟨⟨1, 0, 2⟩, ⟨0, 1, 0⟩, 5⟩)]).store.nextId,
            "bottle.glb", ⟨1, 0, 2⟩, 0, n, 1⟩] ∧
      (step (run [Event.selectModel "bottle.glb",
          Event.pointerMove (some ⟨⟨1, 0, 2⟩, ⟨0, 1, 0⟩, 5⟩)]) Event.confirm).store.nextId
        = (run [Event.selectModel "bottle.glb",
            Event.pointerMove (some ⟨⟨1, 0, 2⟩, ⟨0, 1, 0⟩, 5⟩)]).store.nextId + 1 ∧
      (step (run [Event.selectModel "bottle.glb",
          Event.pointerMove (some ⟨⟨1, 0, 2⟩, ⟨0, 1, 0⟩, 5⟩)]) Event.confirm).history.undoStack.head?
        = some ⟨ActionKind.place,
            (run [Event.selectModel "bottle.glb",
              Event.pointerMove (some ⟨⟨1, 0, 2⟩, ⟨0, 1, 0⟩, 5⟩)]).store.nextId, none,
            some ⟨"bottle.glb", ⟨1, 0, 2⟩, 0, n, 1⟩⟩ ∧
      (step (run [Event.selectModel "bottle.glb",
          Event.pointerMove (some ⟨⟨1, 0, 2⟩, ⟨0, 1, 0⟩, 5⟩)]) Event.confirm).history.redoStack = [] ∧
      (step (run [Event.selectModel "bottle.glb",
          Event.pointerMove (some ⟨⟨1, 0, 2⟩, ⟨0, 1, 0⟩, 5⟩)]) Event.confirm).selection
        = some (run [Event.selectModel "bottle.glb",
            Event.pointerMove (some ⟨⟨1, 0, 2⟩, ⟨0, 1, 0⟩, 5⟩)]).store.nextId ∧
      (step (run [Event.selectModel "bottle.glb",
          Event.pointerMove (some ⟨⟨1, 0, 2⟩, ⟨0, 1, 0⟩, 5⟩)]) Event.confirm).ghost = none ∧
      (step (run [Event.selectModel "bottle.glb",
          Event.pointerMove (some ⟨⟨1, 0, 2⟩, ⟨0, 1, 0⟩, 5⟩)]) Event.confirm).mode
        = Mode.adjusting) :=
  ⟨⟨[Event.selectModel "bottle.glb",
      Event.pointerMove (some ⟨⟨1, 0, 2⟩, ⟨0, 1, 0⟩, 5⟩)], rfl⟩, rfl, rfl, rfl,
    (c1_confirm_commit
      (run [Event.selectModel "bottle.glb",
        Event.pointerMove (some ⟨⟨1, 0, 2⟩, ⟨0, 1, 0⟩, 5⟩)])
      ⟨"bottle.glb", ⟨1, 0, 2⟩, 0, some ⟨0, 1, 0⟩, 1, true⟩
      ⟨[Event.selectModel "bottle.glb",
        Event.pointerMove (some ⟨⟨1, 0, 2⟩, ⟨0, 1, 0⟩, 5⟩)], rfl⟩ rfl rfl).1 rfl⟩

/-- Claim C3: for any applicable sequence of at most 20 recorded actions
run from an empty history, undoing once per action restores the exact
pre-sequence object-store content, and then redoing once per action
restores the exact post-sequence store and history; in particular undo
immediately followed by redo is a no-op on observable object state. -/
theorem c3_undo_redo_roundtrip (rs : List ActionRequest) (st : ObjectStore)
    (hwf : StoreWF st) (happ : appliesAll st rs = true)
    (hlen : rs.length ≤ HISTORY_CAP) :
    (doUndo^[rs.length] (runActions (st, History.empty) rs)).1.objects = st.objects ∧
    doRedo^[rs.length] (doUndo^[rs.length] (runActions (st, History.empty) rs))
      = runActions (st, History.empty) rs := by
  have hundo := undoN_runActions rs st History.empty hwf happ rfl
    (by simpa [History.empty] using hlen)
  constructor
  · rw [hundo]
  · rw [hundo]
    have hredo := redoN_entries rs st [] (execActions st rs).nextId happ
    have hfst : (runActions (st, History.empty) rs).1 = execActions st rs :=
      runActions_fst rs st History.empty
    have hsnd : (runActions (st, History.empty) rs).2
        = ⟨(entriesOf st rs).reverse ++ History.empty.undoStack, []⟩ :=
      runActions_snd rs st History.empty happ rfl
        (by simpa [History.empty] using hlen)
    have : (⟨History.empty.undoStack, entriesOf st rs⟩ : History)
        = ⟨[], entriesOf st rs⟩ := rfl
    rw [this]
    rw [hredo]
    have hobj : (⟨(execActions st rs).objects, (execActions st rs).nextId⟩ : ObjectStore)
        = execActions st rs := rfl
    rw [hobj, ← hfst, List.append_nil]
    rw [Prod.ext_iff]
    refine ⟨rfl, ?_⟩
    rw [hsnd]
    simp [History.empty]

/-- Claim C3 witness: place, rotate and delete on an empty store, then
three undos and three redos. -/
theorem c3_undo_redo_roundtrip_witness :
    StoreWF ObjectStore.empty ∧
    appliesAll ObjectStore.empty
      [ActionRequest.place ⟨"m", ⟨0, 0, 0⟩, 0, ⟨0, 1, 0⟩, 1⟩,
       ActionRequest.rotate 0 1,
       ActionRequest.delete 0] = true ∧
    (doUndo^[3] (runActions (ObjectStore.empty, History.empty)
        [ActionRequest.place ⟨"m", ⟨0, 0, 0⟩, 0, ⟨0, 1, 0⟩, 1⟩,
         ActionRequest.rotate 0 1,
         ActionRequest.delete 0])).1.objects = ObjectStore.empty.objects ∧
    doRedo^[3] (doUndo^[3] (runActions (ObjectStore.empty, History.empty)
        [ActionRequest.place ⟨"m", ⟨0, 0, 0⟩, 0, ⟨0, 1, 0⟩, 1⟩,
         ActionRequest.rotate 0 1,
         ActionRequest.delete 0]))
      = runActions (ObjectStore.empty, History.empty)
        [ActionRequest.place ⟨"m", ⟨0, 0, 0⟩, 0, ⟨0, 1, 0⟩, 1⟩,
         ActionRequest.rotate 0 1,
         ActionRequest.delete 0] := by
  have hwf : StoreWF ObjectStore.empty := ⟨List.Pairwise.nil, by intro o ho; cases ho⟩
  have h := c3_undo_redo_roundtrip
    [ActionRequest.place ⟨"m", ⟨0, 0, 0⟩, 0, ⟨0, 1, 0⟩, 1⟩,
     ActionRequest.rotate 0 1,
     ActionRequest.delete 0] ObjectStore.empty hwf (by decide) (by decide)
  exact ⟨hwf, by decide, h.1, h.2⟩

/-- Claim C8 counterexample: the treat record serialized by the
persistence layer for a concrete placed treat does not have the shape
stated by the spec: its keys are not position, yaw, surfaceNormal,
scale, and it has no surfaceNormal or yaw key at all. -/
theorem c8_serialized_shape_counterexample :
    jsonKeys (serializeTreatJson
        ⟨"treat-1", "custom", "model.glb", ⟨1, 2, 3⟩, ⟨0, 0, 0, none⟩,
          ⟨1, 1, 1⟩, ⟨none, none, none⟩⟩)
      ≠ specTransformRecordKeys ∧
    "surfaceNormal" ∉ jsonKeys (serializeTreatJson
        ⟨"treat-1", "custom", "model.glb", ⟨1, 2, 3⟩, ⟨0, 0, 0, none⟩,
          ⟨1, 1, 1⟩, ⟨none, none, none⟩⟩) ∧
    "yaw" ∉ jsonKeys (serializeTreatJson
        ⟨"treat-1", "custom", "model.glb", ⟨1, 2, 3⟩, ⟨0, 0, 0, none⟩,
          ⟨1, 1, 1⟩, ⟨none, none, none⟩⟩) := by
  refine ⟨?_, ?_, ?_⟩ <;> decide

/-- Claim C8 (amended): every treat record serialized by the skeleton
persistence layer has exactly the keys id, type, glbUrl, position,
rotation, scale, metadata, where position and scale are vectors and
rotation is an Euler; the core persistence layer emits id, type, glbUrl,
position, rotation plus optional message and timestamps and no scale;
neither serializer emits a surfaceNormal vector or a scalar yaw field
(the yaw lives inside the Euler rotation). -/
theorem c8_serialized_shape (t : Treat) (ct : CoreTreat) :
    jsonKeys (serializeTreatJson t)
      = ["id", "type", "glbUrl", "position", "rotation", "scale", "metadata"] ∧
    "surfaceNormal" ∉ jsonKeys (serializeTreatJson t) ∧
    "yaw" ∉ jsonKeys (serializeTreatJson t) ∧
    "surfaceNormal" ∉ jsonKeys (serializeCoreTreatJson ct) ∧
    "yaw" ∉ jsonKeys (serializeCoreTreatJson ct) ∧
    "scale" ∉ jsonKeys (serializeCoreTreatJson ct) := by
  obtain ⟨i, ty, gl, ms, pos, rot, ca, ua⟩ := ct
  refine ⟨rfl, ?_, ?_, ?_, ?_, ?_⟩
  · simp [serializeTreatJson, jsonKeys]
  · simp [serializeTreatJson, jsonKeys]
  · cases ms <;> cases ca <;> cases ua <;> simp [serializeCoreTreatJson, jsonKeys]
  · cases ms <;> cases ca <;> cases ua <;> simp [serializeCoreTreatJson, jsonKeys]
  · cases ms <;> cases ca <;> cases ua <;> simp [serializeCoreTreatJson, jsonKeys]

/-- Claim C9: when the external loader rejects a non-empty world url,
loadWorld returns a failure result carrying the classified error (never
success), invokes the dedicated onError callback exactly once with the
failure message, and leaves the current world url unchanged, so no
state change occurs that would make the failed model previewable. -/
theorem c9_load_failure (st : SceneMgrState) (url msg : String)
    (hne : url ≠ "") :
    (loadWorld st url (SpzLoadOutcome.rejected msg)).1
      = LoadWorldResult.fail (classifyLoadError msg url) ∧
    (loadWorld st url (SpzLoadOutcome.rejected msg)).1 ≠ LoadWorldResult.ok ∧
    (loadWorld st url (SpzLoadOutcome.rejected msg)).2.2 = [msg] ∧
    (loadWorld st url (SpzLoadOutcome.rejected msg)).2.1.currentWorldUrl
      = st.currentWorldUrl := by
  unfold loadWorld
  rw [if_neg hne]
  refine ⟨rfl, ?_, rfl, rfl⟩
  intro hc
  cases hc

/-- Claim C9 witness: a timeout rejection for a concrete world url. -/
theorem c9_load_failure_witness :
    "world.spz" ≠ "" ∧
    (loadWorld ⟨false, none⟩ "world.spz"
        (SpzLoadOutcome.rejected "Load timeout after 10000ms")).1
      = LoadWorldResult.fail
          (classifyLoadError "Load timeout after 10000ms" "world.spz") ∧
    (loadWorld ⟨false, none⟩ "world.spz"
        (SpzLoadOutcome.rejected "Load timeout after 10000ms")).1
      ≠ LoadWorldResult.ok ∧
    (loadWorld ⟨false, none⟩ "world.spz"
        (SpzLoadOutcome.rejected "Load timeout after 10000ms")).2.2
      = ["Load timeout after 10000ms"] ∧
    (loadWorld ⟨false, none⟩ "world.spz"
        (SpzLoadOutcome.rejected "Load timeout after 10000ms")).2.1.currentWorldUrl
      = (⟨false, none⟩ : SceneMgrState).currentWorldUrl :=
  ⟨by decide, c9_load_failure ⟨false, none⟩ "world.spz" "Load timeout after 10000ms"
    (by decide)⟩

lemma treat_roundtrip {t : Treat} (ht : t.type ∈ VALID_TREAT_TYPES) :
    deserializeTreat (serializeTreat t) = t := by
  obtain ⟨i, ty, gl, pos, rot, sc, md⟩ := t
  obtain ⟨px, py, pz⟩ := pos
  obtain ⟨rx, ry, rz, ro⟩ := rot
  obtain ⟨sx, sy, sz⟩ := sc
  obtain ⟨mt, mb, mo⟩ := md
  simp only [VALID_TREAT_TYPES] at ht
  cases ro <;>
    simp_all [serializeTreat, deserializeTreat, serializeVector3, deserializeVector3,
      serializeEuler, deserializeEuler, deserializeTreatType, deserializeTreatMetadata,
      VALID_TREAT_TYPES]

lemma waypoint_roundtrip {w : Waypoint}
    (hw : ∀ a, w.triggerAction = some a → a.type ∈ VALID_ACTION_TYPES) :
    deserializeWaypoint (serializeWaypoint w) = w := by
  obtain ⟨i, pos, pid, ord, act⟩ := w
  obtain ⟨px, py, pz⟩ := pos
  cases act with
  | none =>
    cases pid <;> cases ord <;>
      simp [serializeWaypoint, deserializeWaypoint, serializeVector3, deserializeVector3]
  | some a =>
    obtain ⟨at1, ap⟩ := a
    have := hw ⟨at1, ap⟩ rfl
    cases pid <;> cases ord <;>
      simp_all [serializeWaypoint, deserializeWaypoint, serializeVector3,
        deserializeVector3, deserializeWaypointAction]

lemma path_roundtrip (p : WaypointPath) :
    deserializeWaypointPath (serializeWaypointPath p) = p := rfl

/-- Claim C10: for a well-formed SceneState whose treats all have a
recognized type, deserializing the serialization is the identity on
every field; and a serialized record missing worldUrl makes fromObject
throw. -/
theorem c10_serialization_roundtrip (s : SceneState) (now : String)
    (hwf : wellFormedScene s) :
    fromJSON (toJSON s) now = Except.ok s ∧
    (∀ d : SerializedSceneState, d.worldUrl = none →
      fromObject d now
        = Except.error "SceneState missing required field: worldUrl") := by
  obtain ⟨hv, hc, hu, htr, hwp⟩ := hwf
  constructor
  · obtain ⟨ver, wurl, treats, wps, paths, cat, uat⟩ := s
    simp only at hv hc hu htr hwp
    unfold fromJSON toJSON toObject fromObject
    dsimp only
    have h1 : (treats.map serializeTreat).map deserializeTreat = treats := by
      rw [List.map_map]
      exact listMapId (fun t ht => treat_roundtrip (htr t ht))
    have h2 : (wps.map serializeWaypoint).map deserializeWaypoint = wps := by
      rw [List.map_map]
      exact listMapId (fun w hw => waypoint_roundtrip (fun a ha => hwp w hw a ha))
    have h3 : (paths.map serializeWaypointPath).map deserializeWaypointPath = paths := by
      rw [List.map_map]
      exact listMapId (fun p _ => path_roundtrip p)
    rw [if_neg hv, if_neg hc, if_neg hu, h1, h2, h3]
  · intro d hd
    unfold fromObject
    rw [hd]

/-- Claim C10 witness: the round trip on the concrete scene of the
repository round-trip test (a message-bottle treat, one waypoint with a
text trigger and one path), and the worldUrl validation error. -/
theorem c10_serialization_roundtrip_witness :
    wellFormedScene
      ⟨1, "https://example.com/world.spz",
        [⟨"treat-1", "message-bottle",
          "https://s3.amazonaws.com/worldmatica/message_in_a_bottle.glb",
          ⟨21 / 2, -23 / 10, 39 / 5⟩, ⟨1 / 10, 1 / 5, 3 / 10, some "XYZ"⟩,
          ⟨3 / 2, 3 / 2, 3 / 2⟩, ⟨some "Hello world!", none, some "obj-123"⟩⟩],
        [⟨"wp-1", ⟨5, 0, 5⟩, some "path-1", some 0, some ⟨"text", "Welcome!"⟩⟩],
        [⟨"path-1", "Tour", ["wp-1"]⟩],
        "2025-01-01T00:00:00Z", "2025-01-02T12:00:00Z"⟩ ∧
    fromJSON (toJSON
      ⟨1, "https://example.com/world.spz",
        [⟨"treat-1", "message-bottle",
          "https://s3.amazonaws.com/worldmatica/message_in_a_bottle.glb",
          ⟨21 / 2, -23 / 10, 39 / 5⟩, ⟨1 / 10, 1 / 5, 3 / 10, some "XYZ"⟩,
          ⟨3 / 2, 3 / 2, 3 / 2⟩, ⟨some "Hello world!", none, some "obj-123"⟩⟩],
        [⟨"wp-1", ⟨5, 0, 5⟩, some "path-1", some 0, some ⟨"text", "Welcome!"⟩⟩],
        [⟨"path-1", "Tour", ["wp-1"]⟩],
        "2025-01-01T00:00:00Z", "2025-01-02T12:00:00Z"⟩) "2025-06-01T00:00:00Z"
      = Except.ok
        ⟨1, "https://example.com/world.spz",
          [⟨"treat-1", "message-bottle",
            "https://s3.amazonaws.com/worldmatica/message_in_a_bottle.glb",
            ⟨21 / 2, -23 / 10, 39 / 5⟩, ⟨1 / 10, 1 / 5, 3 / 10, some "XYZ"⟩,
            ⟨3 / 2, 3 / 2, 3 / 2⟩, ⟨some "Hello world!", none, some "obj-123"⟩⟩],
          [⟨"wp-1", ⟨5, 0, 5⟩, some "path-1", some 0, some ⟨"text", "Welcome!"⟩⟩],
          [⟨"path-1", "Tour", ["wp-1"]⟩],
          "2025-01-01T00:00:00Z", "2025-01-02T12:00:00Z"⟩ ∧
    fromObject ⟨1, none, [], [], [], "", ""⟩ "2025-06-01T00:00:00Z"
      = Except.error "SceneState missing required field: worldUrl" := by
  have hwf : wellFormedScene
      ⟨1, "https://example.com/world.spz",
        [⟨"treat-1", "message-bottle",
          "https://s3.amazonaws.com/worldmatica/message_in_a_bottle.glb",
          ⟨21 / 2, -23 / 10, 39 / 5⟩, ⟨1 / 10, 1 / 5, 3 / 10, some "XYZ"⟩,
          ⟨3 / 2, 3 / 2, 3 / 2⟩, ⟨some "Hello world!", none, some "obj-123"⟩⟩],
        [⟨"wp-1", ⟨5, 0, 5⟩, some "path-1", some 0, some ⟨"text", "Welcome!"⟩⟩],
        [⟨"path-1", "Tour", ["wp-1"]⟩],
        "2025-01-01T00:00:00Z", "2025-01-02T12:00:00Z"⟩ := by
    refine ⟨by decide, by decide, by decide, by decide, ?_⟩
    intro w hw a ha
    simp only [List.mem_singleton] at hw
    subst hw
    cases ha
    decide
  have h := c10_serialization_roundtrip _ "2025-06-01T00:00:00Z" hwf
  exact ⟨hwf, h.1, h.2 _ rfl⟩

end Worldnotes
